import Mathlib

/-!
Verification of the math-cash procedural map generator.

This file gives a shallow embedding, in Lean, of the generation core of the
math-cash repository:

* `packages/shared/src/utils.ts` (random helpers, operand generation, answer
  computation),
* `packages/shared/src/game-logic.ts` (maze carving, connectivity check,
  fallback corridor, map assembly, challenge factory, difficulty progression),
* the inline generator in `apps/frontend/src/context/GameContext.tsx`
  (its `computeAnswer`), and
* the mob movement step of the Phaser `MobController`
  (`getRandomAdjacentPosition` / `moveSingleMob`).

Modelling conventions:

* JavaScript's ambient `Math.random()` is modelled by an explicit stream of
  natural numbers `Rng := Nat → Nat`; each primitive random draw consumes the
  head of the stream.  `randomInt(min, max)` (JS
  `Math.floor(r * (max-min+1)) + min` with `r ∈ [0,1)`) yields exactly the
  values `min + k` for `0 ≤ k < span` when the span `max-min+1` is positive,
  exactly `min` when the span is `0`, and exactly the values `min - k` for
  `0 ≤ k ≤ -span` when the span is negative (the program does call it with
  `min > max`: the expert tier's `randomInt(20, min(100, 12))`); the
  embedding realises the choice by reducing one stream draw into the same
  interval.
* `array.sort(() => Math.random() - 0.5)` produces an implementation-defined
  permutation of the array; the embedding draws one stream value and uses it
  to select a permutation (a Fisher-Yates walk), which covers exactly the
  observable behaviours (some permutation of the input).
* JavaScript `TypeError`s that arise from using `undefined` (missing record
  keys, out-of-range row writes) are modelled with `Except`: computations
  return `.error .typeError` exactly where the JS code would throw.
* Unbounded JS recursion/loops are given an explicit fuel argument so that
  every definition is structurally recursive and kernel-computable; the
  chosen fuels are proved sufficient (the `.error .fuelOut` branch is shown
  unreachable) wherever a theorem relies on the loop completing.
* `Math.floor(n * 0.3)` and `Math.floor(n * 0.1)` on IEEE doubles agree with
  the integer divisions `3*n/10` and `n/10` for every `n` in the program's
  range (checked exhaustively far beyond any feasible map size), so the
  embedding uses the integer divisions.
* JS numbers that hold challenge answers are modelled as rationals; on every
  path this program evaluates (integer sums, differences, products, and
  exact divisions) IEEE arithmetic is exact, so the rational semantics
  coincides with the float semantics there.
* The difficulty parameter is modelled as a `String`, matching the runtime
  semantics of the TypeScript record lookups (including lookups fed by
  untrusted, deserialized strings).  The record literals below carry exactly
  the keys present in the source; in particular the operand-range table of
  `utils.ts` has no `"infant"`/`"toddler"` entries even though its declared
  type `Record<DifficultyLevel, …>` requires them.
-/

/-- Runtime errors of the JS semantics: `typeError` stands for a thrown
`TypeError` (property access on `undefined`, write through an undefined row),
`fuelOut` is the artificial out-of-fuel marker proved unreachable where it
matters. -/
inductive JsErr where
  | typeError
  | fuelOut
deriving DecidableEq, Repr

/-- Stream of random draws standing in for `Math.random()`. -/
def Rng : Type := Nat → Nat

/-- Consume one draw from the stream. -/
def randDraw (g : Rng) : Nat × Rng :=
  (g 0, fun n => g (n + 1))

/-- Embedding of `randomInt(min, max)` from `utils.ts`:
`Math.floor(Math.random() * (max - min + 1)) + min`.  For a positive span the
result is `min + k` with `0 ≤ k < span`; for span `0` it is `min`; for a
negative span `Math.floor` of a number in `(span, 0]` gives `min - k` with
`0 ≤ k ≤ -span`. -/
def randomInt (lo hi : Int) (g : Rng) : Int × Rng :=
  let (k, g') := randDraw g
  let span := hi - lo + 1
  (if 0 < span then lo + (k : Int) % span
   else if span < 0 then lo - (k : Int) % (1 - span)
   else lo, g')

/-- The four arithmetic operations of the game (`MathOperation`). -/
inductive MathOperation where
  | addition
  | subtraction
  | multiplication
  | division
deriving DecidableEq, Repr

/-- Operand ranges of `generateOperands` in `utils.ts`.  The record literal
carries exactly the five keys written in the source — there is no entry for
`"infant"` or `"toddler"`, although the declared type requires one. -/
def operandRanges (d : String) : Option (Int × Int) :=
  if d = "beginner" then some (1, 5)
  else if d = "easy" then some (1, 10)
  else if d = "medium" then some (5, 20)
  else if d = "hard" then some (10, 50)
  else if d = "expert" then some (20, 100)
  else none

/-- Embedding of `generateOperands(operation, difficulty)` from `utils.ts`.
A missing range entry surfaces as a thrown `TypeError` at `range.min`, as it
does at runtime.  The returned pair is the operand array `[a, b]`. -/
def generateOperands (op : MathOperation) (d : String) (g : Rng) :
    Except JsErr ((Int × Int) × Rng) :=
  match operandRanges d with
  | none => .error .typeError
  | some (lo, hi) =>
    match op with
    | .addition =>
        let (a, g) := randomInt lo hi g
        let (b, g) := randomInt lo hi g
        .ok ((a, b), g)
    | .subtraction =>
        let (a, g) := randomInt lo hi g
        let (b, g) := randomInt lo hi g
        .ok ((a, b), g)
    | .multiplication =>
        let (a, g) := randomInt lo (min hi 12) g
        let (b, g) := randomInt lo (min hi 12) g
        .ok ((a, b), g)
    | .division =>
        let (divisor, g) := randomInt lo (min hi 12) g
        let (quotient, g) := randomInt lo hi g
        .ok ((divisor * quotient, divisor), g)

/-- Embedding of `calculateAnswer(operation, operands)` from `utils.ts`.
Division is `a / b` on JS numbers; every division this program evaluates is
exact (operands are built as `divisor * quotient`), where IEEE division
agrees with rational division. -/
def calculateAnswer (op : MathOperation) (a b : Int) : ℚ :=
  match op with
  | .addition => (a : ℚ) + b
  | .subtraction => (a : ℚ) - b
  | .multiplication => (a : ℚ) * b
  | .division => (a : ℚ) / b

/-- Embedding of `computeAnswer` from `GameContext.tsx`: subtraction is an
absolute difference there, and the `multiplication` case is the switch's
`default`, so any other tag also yields a product. -/
def computeAnswer (op : MathOperation) (a b : Int) : Int :=
  match op with
  | .addition => a + b
  | .subtraction => (a - b).natAbs
  | .multiplication => a * b
  | .division => a * b

/-- Allowed operations per difficulty (`allowedOperationsByDifficulty` in
`game-logic.ts`); all seven tiers are present here. -/
def allowedOperations (d : String) : Option (List MathOperation) :=
  if d = "infant" then some [.addition]
  else if d = "toddler" then some [.addition]
  else if d = "beginner" then
    some [.addition, .subtraction, .multiplication, .division]
  else if d = "easy" then
    some [.addition, .subtraction, .multiplication, .division]
  else if d = "medium" then
    some [.addition, .subtraction, .multiplication, .division]
  else if d = "hard" then
    some [.addition, .subtraction, .multiplication, .division]
  else if d = "expert" then
    some [.addition, .subtraction, .multiplication, .division]
  else none

/-- Reward table (`rewardMultipliers` in `game-logic.ts`). -/
def rewardMultipliers (d : String) : Option Int :=
  if d = "infant" then some 5
  else if d = "toddler" then some 8
  else if d = "beginner" then some 10
  else if d = "easy" then some 15
  else if d = "medium" then some 25
  else if d = "hard" then some 40
  else if d = "expert" then some 60
  else none

/-- A generated math challenge.  The JS `id` is a timestamp plus a random
suffix; the timestamp is environmental, so the model keeps only the random
suffix drawn by `randomInt(1000, 9999)`. -/
structure MathChallenge where
  idSuffix : Int
  operation : MathOperation
  operands : Int × Int
  correctAnswer : ℚ
  difficulty : String
  reward : Int
deriving DecidableEq, Repr

/-- Embedding of `generateRegularChallenge(difficulty)` from `game-logic.ts`.
The lookup `allowedOperationsByDifficulty[difficulty]` followed by
`operations.length` throws on a missing key; `rewardMultipliers[difficulty]`
is read only on paths where the key exists (the two records share exactly the
same seven keys), so it is read with a default. -/
def generateRegularChallenge (d : String) (g : Rng) :
    Except JsErr (MathChallenge × Rng) :=
  match allowedOperations d with
  | none => .error .typeError
  | some ops =>
    let (i, g) := randomInt 0 (ops.length - 1) g
    let op := ops.getD i.toNat .addition
    match generateOperands op d g with
    | .error e => .error e
    | .ok ((a, b), g) =>
      let (suffix, g) := randomInt 1000 9999 g
      .ok (⟨suffix, op, (a, b), calculateAnswer op a b, d,
            (rewardMultipliers d).getD 0⟩, g)

/-- The ordered difficulty progression (`difficultyProgression`). -/
def difficultyProgression : List String :=
  ["infant", "toddler", "beginner", "easy", "medium", "hard", "expert"]

/-- JS `Array.prototype.indexOf`: index of the first occurrence, `-1` when
absent. -/
def jsIndexOf (l : List String) (s : String) : Int :=
  match l.indexOf? s with
  | some i => (i : Int)
  | none => -1

/-- Embedding of `getNextDifficulty(currentDifficulty)` from `game-logic.ts`:
`difficultyProgression[Math.min(currentIndex + 1, length - 1)]`. -/
def getNextDifficulty (d : String) : String :=
  let i := jsIndexOf difficultyProgression d
  difficultyProgression.getD (min (i + 1) 6).toNat ""

/-- Embedding of `generateBossChallenge(difficulty)` from `game-logic.ts`:
one tier up (saturating), delegate to the regular generator, then replace the
id suffix and triple the reward. -/
def generateBossChallenge (d : String) (g : Rng) :
    Except JsErr (MathChallenge × Rng) :=
  let bossDifficulty := getNextDifficulty d
  match generateRegularChallenge bossDifficulty g with
  | .error e => .error e
  | .ok (ch, g) =>
    let (suffix, g) := randomInt 1000 9999 g
    .ok ({ ch with idSuffix := suffix, reward := ch.reward * 3 }, g)

/-- Grid position; intermediate coordinates during carving may be negative,
so both components are integers. -/
structure Pos where
  x : Int
  y : Int
deriving DecidableEq, Repr, Inhabited

/-- A boolean grid (`boolean[][]` in the source): `true` = open. -/
abbrev Maze : Type := List (List Bool)

/-- Grid allocated by `Array(height).fill(null).map(() => Array(width).fill(false))`. -/
def mkMaze (w h : Int) : Maze :=
  List.replicate h.toNat (List.replicate w.toNat false)

/-- Read `maze[y][x]`.  All reads the source performs outside a bounds guard
never happen, and JS yields `undefined` (falsy) for an out-of-range index, so
the embedding reads with default `false`. -/
def getCell (mz : Maze) (x y : Int) : Bool :=
  if 0 ≤ x ∧ 0 ≤ y then (mz.getD y.toNat []).getD x.toNat false else false

/-- Write `true` at index `i` of a row; an index past the end extends the
row, as JS element assignment does (holes read back as falsy). -/
def setRowTrue (row : List Bool) (i : Nat) : List Bool :=
  if i < row.length then row.set i true
  else row ++ List.replicate (i - row.length) false ++ [true]

/-- The element write `maze[y][x] = true`.  A row index outside the grid
throws (`maze[y]` is `undefined`); a negative column index writes a
non-element property, observationally a no-op. -/
def setTrue (mz : Maze) (x y : Int) : Except JsErr Maze :=
  if 0 ≤ y ∧ y.toNat < mz.length then
    if 0 ≤ x then
      .ok (mz.set y.toNat (setRowTrue (mz.getD y.toNat []) x.toNat))
    else .ok mz
  else .error .typeError

/-- Bounds-guarded write used where the source checks bounds before
assigning (the BFS `visited` marks): out of bounds is a no-op. -/
def setTrueClip (mz : Maze) (x y : Int) : Maze :=
  match setTrue mz x y with
  | .ok mz' => mz'
  | .error _ => mz

/-- Number of `true` cells (`maze.flat().filter(Boolean).length`). -/
def countTrue (mz : Maze) : Nat :=
  (mz.map (fun r => r.count true)).sum

/-- The `isValid(x, y)` bounds check of `generateMazePaths`. -/
def isValid (w h x y : Int) : Prop :=
  0 ≤ x ∧ x < w ∧ 0 ≤ y ∧ y < h

instance (w h x y : Int) : Decidable (isValid w h x y) := by
  unfold isValid; infer_instance

/-- Carving directions (two-cell strides): up, right, down, left. -/
def carveDirections : List (Int × Int) :=
  [(0, -2), (2, 0), (0, 2), (-2, 0)]

/-- One step of a JS `array.sort(() => Math.random() - 0.5)` shuffle model:
draw one stream value per element and move the chosen element to the front.
The first argument is fuel, instantiated with the list length. -/
def shuffleAux {α : Type} [Inhabited α] : Nat → List α → Rng → List α × Rng
  | 0, _, g => ([], g)
  | _ + 1, [], g => ([], g)
  | n + 1, x :: xs, g =>
    let l := x :: xs
    let (k, g) := randDraw g
    let i := k % l.length
    let a := l.getD i x
    let rest := l.eraseIdx i
    let (tail, g) := shuffleAux n rest g
    (a :: tail, g)

/-- Model of the randomized shuffle: an arbitrary permutation of the input,
selected by the random stream. -/
def shuffleJs {α : Type} [Inhabited α] (l : List α) (g : Rng) : List α × Rng :=
  shuffleAux l.length l g

/-- Loop body of `carvePath`: walk the shuffled direction list; for each
in-bounds, still-closed neighbour two cells away, open the wall midpoint and
recurse (through `recur`) into the neighbour. -/
def carveDirs (recur : Maze → Int → Int → Rng → Except JsErr (Maze × Rng))
    (w h : Int) : Maze → Int → Int → List (Int × Int) → Rng →
    Except JsErr (Maze × Rng)
  | mz, _, _, [], g => .ok (mz, g)
  | mz, x, y, (dx, dy) :: rest, g =>
    let newX := x + dx
    let newY := y + dy
    let wallX := x + dx / 2
    let wallY := y + dy / 2
    if isValid w h newX newY ∧ getCell mz newX newY = false then
      match setTrue mz wallX wallY with
      | .error e => .error e
      | .ok mz1 =>
        match recur mz1 newX newY g with
        | .error e => .error e
        | .ok (mz2, g2) => carveDirs recur w h mz2 x y rest g2
    else carveDirs recur w h mz x y rest g

/-- The recursive carve `carvePath(x, y)` of `generateMazePaths`: mark the
cell open, shuffle the four directions, and walk them via `carveDirs`.  The
fuel argument makes the recursion structural; `generateMazePaths` passes
`width·height + 1`, proved sufficient below (each recursive call opens a
previously closed cell). -/
def carvePath : Nat → Int → Int → Maze → Int → Int → Rng →
    Except JsErr (Maze × Rng)
  | 0, _, _, _, _, _, _ => .error .fuelOut
  | fuel + 1, w, h, mz, x, y, g =>
    match setTrue mz x y with
    | .error e => .error e
    | .ok mz1 =>
      let (dirs, g1) := shuffleJs carveDirections g
      carveDirs (fun m a b r => carvePath fuel w h m a b r) w h mz1 x y dirs g1

/-- BFS neighbour deltas of `isPathAvailable`. -/
def bfsDeltas : List (Int × Int) := [(0, -1), (1, 0), (0, 1), (-1, 0)]

/-- Neighbour expansion of one BFS iteration: each in-bounds, unvisited,
open neighbour is marked visited and appended to the queue. -/
def bfsExpand (w h : Int) (mz : Maze) (cur : Pos) :
    List (Int × Int) → Maze → List Pos → Maze × List Pos
  | [], visited, queue => (visited, queue)
  | (dx, dy) :: rest, visited, queue =>
    let nx := cur.x + dx
    let ny := cur.y + dy
    if (0 ≤ nx ∧ nx < w ∧ 0 ≤ ny ∧ ny < h) ∧
        getCell visited nx ny = false ∧ getCell mz nx ny = true then
      bfsExpand w h mz cur rest (setTrueClip visited nx ny) (queue ++ [⟨nx, ny⟩])
    else bfsExpand w h mz cur rest visited queue

/-- The BFS loop of `isPathAvailable`.  Fuel bounds the number of queue pops;
`2·width·height + 2` is proved sufficient below. -/
def bfsLoop : Nat → Int → Int → Maze → Pos → Maze → List Pos →
    Except JsErr Bool
  | 0, _, _, _, _, _, _ => .error .fuelOut
  | fuel + 1, w, h, mz, dest, visited, queue =>
    match queue with
    | [] => .ok false
    | cur :: rest =>
      if cur.x = dest.x ∧ cur.y = dest.y then .ok true
      else
        let (visited', queue') := bfsExpand w h mz cur bfsDeltas visited rest
        bfsLoop fuel w h mz dest visited' queue'

/-- Embedding of `isPathAvailable(maze, start, end, width, height)`. -/
def isPathAvailable (mz : Maze) (start dest : Pos) (w h : Int) :
    Except JsErr Bool :=
  match setTrue (mkMaze w h) start.x start.y with
  | .error e => .error e
  | .ok visited => bfsLoop (2 * (w.toNat * h.toNat) + 2) w h mz dest visited [start]

/-- Loop of `carveFallbackPath`: step one axis at a time towards the target,
choosing randomly among the axes that still differ, opening each visited
cell.  Fuel is the remaining Manhattan distance plus one, proved sufficient
below (each step decreases the distance by one). -/
def fallbackLoop : Nat → Maze → Int → Int → Pos → Rng →
    Except JsErr (Maze × Rng)
  | 0, _, _, _, _, _ => .error .fuelOut
  | fuel + 1, mz, cx, cy, dest, g =>
    if cx = dest.x ∧ cy = dest.y then .ok (mz, g)
    else
      let candidates : List Pos :=
        (if cx ≠ dest.x then [⟨cx + (if cx < dest.x then 1 else -1), cy⟩] else []) ++
        (if cy ≠ dest.y then [⟨cx, cy + (if cy < dest.y then 1 else -1)⟩] else [])
      let (i, g) := randomInt 0 ((candidates.length : Int) - 1) g
      let next := candidates.getD i.toNat ⟨cx, cy⟩
      match setTrue mz next.x next.y with
      | .error e => .error e
      | .ok mz1 => fallbackLoop fuel mz1 next.x next.y dest g

/-- Embedding of `carveFallbackPath(maze, start, end)`. -/
def carveFallbackPath (mz : Maze) (start dest : Pos) (g : Rng) :
    Except JsErr (Maze × Rng) :=
  match setTrue mz start.x start.y with
  | .error e => .error e
  | .ok mz1 =>
    match fallbackLoop (((dest.x - start.x).natAbs + (dest.y - start.y).natAbs) + 1)
        mz1 start.x start.y dest g with
    | .error e => .error e
    | .ok (mz2, g2) =>
      match setTrue mz2 dest.x dest.y with
      | .error e => .error e
      | .ok mz3 => .ok (mz3, g2)

/-- Loop of `addExtraOpenings`: open `Math.floor(width·height·0.1)` random
interior cells. -/
def extraLoop : Nat → Maze → Int → Int → Rng → Except JsErr (Maze × Rng)
  | 0, mz, _, _, g => .ok (mz, g)
  | n + 1, mz, w, h, g =>
    let (x, g) := randomInt 1 (w - 2) g
    let (y, g) := randomInt 1 (h - 2) g
    match setTrue mz x y with
    | .error e => .error e
    | .ok mz1 => extraLoop n mz1 w h g

/-- Embedding of `addExtraOpenings(maze, width, height)`; the IEEE
`Math.floor(n * 0.1)` agrees with `n / 10` throughout the program's range. -/
def addExtraOpenings (mz : Maze) (w h : Int) (g : Rng) :
    Except JsErr (Maze × Rng) :=
  extraLoop ((w * h).toNat / 10) mz w h g

/-- Embedding of `generateMazePaths(width, height, start, end)`. -/
def generateMazePaths (w h : Int) (start dest : Pos) (g : Rng) :
    Except JsErr (Maze × Rng) := do
  let mz := mkMaze w h
  let startX := if start.x % 2 = 0 then start.x + 1 else start.x
  let startY := if start.y % 2 = 0 then start.y + 1 else start.y
  let (mz, g) ← carvePath (w.toNat * h.toNat + 1) w h mz startX startY g
  let mz ← setTrue mz start.x start.y
  let mz ← setTrue mz dest.x dest.y
  let connected ← isPathAvailable mz start dest w h
  let (mz, g) ←
    if connected then pure (mz, g) else carveFallbackPath mz start dest g
  addExtraOpenings mz w h g

/-- Tile types (`TileType`). -/
inductive TileType where
  | empty
  | challenge
  | boss
  | blocked
deriving DecidableEq, Repr

/-- A map tile (shared `Tile`): position, type, completion flag,
accessibility, and the optionally attached challenge. -/
structure Tile where
  position : Pos
  type : TileType
  isCompleted : Bool
  isAccessible : Bool
  challenge : Option MathChallenge
deriving DecidableEq, Repr

/-- Placeholder tile used only as the default of guarded list reads. -/
def dummyTile : Tile :=
  ⟨⟨0, 0⟩, .blocked, false, false, none⟩

/-- The tile grid, indexed `tiles[y][x]`. -/
abbrev TileGrid : Type := List (List Tile)

/-- A wandering mob (lib `Mob`); the JS `id` is environmental and dropped. -/
structure Mob where
  position : Pos
  challenge : MathChallenge
  spriteFrame : Int
  isCompleted : Bool
deriving DecidableEq, Repr

/-- The assembled map (`TileMap`).  The shared generator returns no `mobs`
entry; the lib schema defaults it to `[]`. -/
structure TileMap where
  id : String
  width : Int
  height : Int
  tiles : TileGrid
  difficulty : String
  bossPosition : Pos
  startPosition : Pos
  mobs : List Mob
  isCompleted : Bool

/-- The property update `tiles[p.y][p.x] = …` on a tile object: JS throws a
`TypeError` when either index misses the grid (`tiles[y]` or `tiles[y][x]`
is `undefined`). -/
def updateTile (tiles : TileGrid) (p : Pos) (f : Tile → Tile) :
    Except JsErr TileGrid :=
  if 0 ≤ p.y ∧ p.y.toNat < tiles.length then
    let row := tiles.getD p.y.toNat []
    if 0 ≤ p.x ∧ p.x.toNat < row.length then
      .ok (tiles.set p.y.toNat (row.set p.x.toNat (f (row.getD p.x.toNat dummyTile))))
    else .error .typeError
  else .error .typeError

/-- The all-blocked starting grid of `generateTileMap`. -/
def mkTiles (w h : Int) : TileGrid :=
  (List.range h.toNat).map fun (y : Nat) =>
    (List.range w.toNat).map fun (x : Nat) =>
      ⟨⟨(x : Int), (y : Int)⟩, .blocked, false, false, none⟩

/-- Apply the carved maze to the tile grid: every open cell becomes an
accessible `empty` tile. -/
def applyMaze (tiles : TileGrid) (mz : Maze) : TileGrid :=
  tiles.enum.map fun (y, row) =>
    row.enum.map fun (x, t) =>
      if getCell mz (x : Int) (y : Int) then
        { t with type := .empty, isAccessible := true }
      else t

/-- Open positions excluding start and boss, scanned row by row
(`accessiblePositions` in `placeChallengesOnPaths`). -/
def accessiblePositions (mz : Maze) (w h : Nat) (startP bossP : Pos) :
    List Pos :=
  (List.range h).flatMap fun (y : Nat) =>
    (List.range w).filterMap fun (x : Nat) =>
      let xi : Int := x
      let yi : Int := y
      if getCell mz xi yi ∧ ¬(xi = startP.x ∧ yi = startP.y) ∧
          ¬(xi = bossP.x ∧ yi = bossP.y) then
        some ⟨xi, yi⟩
      else none

/-- Placement loop of `placeChallengesOnPaths`: take the first
`min(challengeCount, positions.length)` shuffled positions and turn each
into a `challenge` tile carrying a freshly generated regular challenge. -/
def placeLoop (d : String) : List Pos → Nat → TileGrid → Rng →
    Except JsErr (TileGrid × Rng)
  | _, 0, tiles, g => .ok (tiles, g)
  | [], _ + 1, tiles, g => .ok (tiles, g)
  | p :: rest, n + 1, tiles, g => do
    let (ch, g) ← generateRegularChallenge d g
    let tiles ← updateTile tiles p
      (fun t => { t with type := .challenge, challenge := some ch })
    placeLoop d rest n tiles g

/-- Embedding of `placeChallengesOnPaths`. -/
def placeChallengesOnPaths (tiles : TileGrid) (challengeCount : Nat)
    (d : String) (startP bossP : Pos) (mz : Maze) (g : Rng) :
    Except JsErr (TileGrid × Rng) :=
  let h := tiles.length
  let w := (tiles.getD 0 []).length
  let positions := accessiblePositions mz w h startP bossP
  let (shuffled, g) := shuffleJs positions g
  placeLoop d shuffled challengeCount tiles g

/-- Embedding of `generateTileMap(mapId, width, height, difficulty)` from
`game-logic.ts`.  The challenge-count density `Math.floor(n * 0.3)` is the
integer `3·n/10` (IEEE-exact throughout the program's range). -/
def generateTileMap (mapId : String) (w h : Int) (d : String) (g : Rng) :
    Except JsErr (TileMap × Rng) := do
  let tiles := mkTiles w h
  let startPosition : Pos := ⟨0, h - 1⟩
  let bossPosition : Pos := ⟨w - 1, 0⟩
  let (mazePaths, g) ← generateMazePaths w h startPosition bossPosition g
  let tiles := applyMaze tiles mazePaths
  let (bossCh, g) ← generateBossChallenge d g
  let tiles ← updateTile tiles bossPosition
    (fun t => { t with type := .boss, challenge := some bossCh, isAccessible := true })
  let accessibleTiles := countTrue mazePaths
  let challengeCount := 3 * accessibleTiles / 10
  let (tiles, g) ← placeChallengesOnPaths tiles challengeCount d
    startPosition bossPosition mazePaths g
  return (⟨mapId, w, h, tiles, d, bossPosition, startPosition, [], false⟩, g)

/-- Mob movement deltas: up, down, left, right. -/
def mobDirections : List (Int × Int) := [(0, -1), (0, 1), (-1, 0), (1, 0)]

/-- Tile lookup `map.tiles[y][x]`, `none` where JS sees `undefined`. -/
def tileAt (m : TileMap) (x y : Int) : Option Tile :=
  if 0 ≤ x ∧ 0 ≤ y then
    match m.tiles.get? y.toNat with
    | none => none
    | some row => row.get? x.toNat
  else none

/-- Direction walk of `MobController.getRandomAdjacentPosition`: the first
shuffled direction whose target is in bounds, on an accessible non-boss
tile, and free of any uncompleted mob, wins; otherwise `null`. -/
def tryAdjacent (m : TileMap) (cur : Pos) : List (Int × Int) → Option Pos
  | [] => none
  | (dx, dy) :: rest =>
    let nx := cur.x + dx
    let ny := cur.y + dy
    if nx < 0 ∨ nx ≥ m.width ∨ ny < 0 ∨ ny ≥ m.height then
      tryAdjacent m cur rest
    else
      match tileAt m nx ny with
      | none => tryAdjacent m cur rest
      | some tile =>
        if tile.isAccessible = false then tryAdjacent m cur rest
        else if tile.type = .boss then tryAdjacent m cur rest
        else if m.mobs.any fun mob =>
            ¬mob.isCompleted ∧ mob.position = ⟨nx, ny⟩ ∧
              ¬(mob.position = cur) then
          tryAdjacent m cur rest
        else some ⟨nx, ny⟩

/-- Embedding of `MobController.getRandomAdjacentPosition(map, current)`;
`Phaser.Utils.Array.Shuffle` is modelled like the other shuffles, as a
stream-selected permutation. -/
def getRandomAdjacentPosition (m : TileMap) (cur : Pos) (g : Rng) :
    Option Pos × Rng :=
  let (dirs, g) := shuffleJs mobDirections g
  (tryAdjacent m cur dirs, g)

/-- Embedding of the position update performed by
`MobController.moveSingleMob`: completed mobs do not move, and a `null`
candidate leaves the position unchanged (timer bookkeeping and sprite
animation are presentation-layer effects outside the model). -/
def moveSingleMob (m : TileMap) (mob : Mob) (g : Rng) : Mob × Rng :=
  if mob.isCompleted then (mob, g)
  else
    match getRandomAdjacentPosition m mob.position g with
    | (some p, g) => ({ mob with position := p }, g)
    | (none, g) => (mob, g)

/-! ## Specification predicates and concrete sample inputs -/

/-- A `h`-row, `w`-column rectangular grid. -/
def gridDims {α : Type} (w h : Nat) (grid : List (List α)) : Prop :=
  grid.length = h ∧ ∀ row ∈ grid, row.length = w

/-- Pointwise growth of open cells (carving and repair only open cells,
they never close one). -/
def mazeLe (m1 m2 : Maze) : Prop :=
  ∀ x y : Int, getCell m1 x y = true → getCell m2 x y = true

/-- In-bounds coordinates for a `w`-by-`h` grid. -/
def inBounds (w h : Nat) (x y : Int) : Prop :=
  0 ≤ x ∧ x.toNat < w ∧ 0 ≤ y ∧ y.toNat < h

/-- Number of in-range closed cells; the termination measure of the carve
and of the BFS visited set. -/
def closedCount (w h : Nat) (mz : Maze) : Nat :=
  ((Finset.range h ×ˢ Finset.range w).filter
    (fun p => getCell mz (p.2 : Int) (p.1 : Int) = false)).card

/-- Four-directional adjacency of grid positions. -/
def adjacent (p q : Pos) : Prop :=
  (q.x - p.x).natAbs + (q.y - p.y).natAbs = 1

/-- Connectivity through open cells: a path of 4-adjacent open cells from
`p` to `r` (both endpoints open). -/
inductive Conn (mz : Maze) : Pos → Pos → Prop where
  | refl (p : Pos) : getCell mz p.x p.y = true → Conn mz p p
  | step (p q r : Pos) : getCell mz p.x p.y = true → adjacent p q →
      Conn mz q r → Conn mz p r

/-- Accessibility mask of a tile grid. -/
def accessMap (tiles : TileGrid) : Maze :=
  tiles.map fun row => row.map fun t => t.isAccessible

/-- Number of accessible tiles of an assembled map (its open-cell count). -/
def openCount (m : TileMap) : Nat :=
  countTrue (accessMap m.tiles)

/-- Number of tiles of type `challenge` on an assembled map. -/
def countChallengeTiles (m : TileMap) : Nat :=
  (m.tiles.map fun row =>
    row.countP fun t => decide (t.type = TileType.challenge)).sum

/-- Number of open non-critical cells (open cells other than start and
boss) of an assembled map, computed from its observable tile grid. -/
def nonCriticalOpen (m : TileMap) : Nat :=
  (accessiblePositions (accessMap m.tiles) (m.tiles.getD 0 []).length
    m.tiles.length m.startPosition m.bossPosition).length

/-- The arithmetic invariant of §8 of the spec for a single challenge: the
stored answer is the computed answer, and division operands divide
exactly. -/
def GoodChallenge (ch : MathChallenge) : Prop :=
  ch.correctAnswer = calculateAnswer ch.operation ch.operands.1 ch.operands.2 ∧
    (ch.operation = .division →
      ch.operands.2 ≠ 0 ∧ ch.operands.1 % ch.operands.2 = 0)

/-- Every challenge attached to a tile of `m` satisfies `GoodChallenge`. -/
def GoodMap (m : TileMap) : Prop :=
  ∀ row ∈ m.tiles, ∀ t ∈ row, ∀ ch, t.challenge = some ch → GoodChallenge ch

/-- A legal mob destination as claimed for `getRandomAdjacentPosition`:
4-adjacent, in bounds, on an accessible non-boss tile, not occupied by an
uncompleted mob. -/
def validMobTarget (m : TileMap) (cur p : Pos) : Prop :=
  adjacent cur p ∧
    (0 ≤ p.x ∧ p.x < m.width ∧ 0 ≤ p.y ∧ p.y < m.height) ∧
    (∃ t, tileAt m p.x p.y = some t ∧ t.isAccessible = true ∧
      t.type ≠ TileType.boss) ∧
    ¬∃ mob ∈ m.mobs, mob.isCompleted = false ∧ mob.position = p

/-- The all-zero random stream, used for concrete evaluations. -/
def g0 : Rng := fun _ => 0

/-- A stream under which the beginner generator draws a subtraction with
operands `1` and `5`. -/
def negStream : Rng := fun n => [1, 0, 4].getD n 0

/-- Extract the map of a successful generation (concrete evaluations
only). -/
def okMapOf (e : Except JsErr (TileMap × Rng)) : TileMap :=
  match e with
  | .ok (m, _) => m
  | .error _ => ⟨"", 0, 0, [], "", ⟨0, 0⟩, ⟨0, 0⟩, [], false⟩

/-- Sample 2×2 map for exercising the mob movement step: every tile open,
boss at `(1, 0)`, one uncompleted mob at `(1, 1)`. -/
def sampleMobMap : TileMap :=
  let ch : MathChallenge := ⟨0, .addition, (1, 2), 3, "infant", 5⟩
  { id := "sample"
    width := 2
    height := 2
    tiles :=
      [[⟨⟨0, 0⟩, .empty, false, true, none⟩,
        ⟨⟨1, 0⟩, .boss, false, true, none⟩],
       [⟨⟨0, 1⟩, .empty, false, true, none⟩,
        ⟨⟨1, 1⟩, .empty, false, true, none⟩]]
    difficulty := "infant"
    bossPosition := ⟨1, 0⟩
    startPosition := ⟨0, 1⟩
    mobs := [⟨⟨1, 1⟩, ch, 0, false⟩]
    isCompleted := false }

/-! ## Random draw bounds -/

lemma randomInt_bounds (lo hi : Int) (g : Rng) :
    (lo ≤ hi → lo ≤ (randomInt lo hi g).1 ∧ (randomInt lo hi g).1 ≤ hi) ∧
    (hi + 1 = lo → (randomInt lo hi g).1 = lo) ∧
    (hi + 1 < lo → hi + 1 ≤ (randomInt lo hi g).1 ∧ (randomInt lo hi g).1 ≤ lo) := by
  unfold randomInt randDraw
  dsimp only
  have hk0 : (0 : Int) ≤ ((g 0 : Nat) : Int) := Int.natCast_nonneg _
  refine ⟨fun h => ?_, fun h => ?_, fun h => ?_⟩
  · rw [if_pos (by omega)]
    have h1 : 0 ≤ ((g 0 : Nat) : Int) % (hi - lo + 1) :=
      Int.emod_nonneg _ (by omega)
    have h2 : ((g 0 : Nat) : Int) % (hi - lo + 1) < hi - lo + 1 :=
      Int.emod_lt_of_pos _ (by omega)
    omega
  · rw [if_neg (by omega), if_neg (by omega)]
  · rw [if_neg (by omega), if_pos (by omega)]
    have h1 : 0 ≤ ((g 0 : Nat) : Int) % (1 - (hi - lo + 1)) :=
      Int.emod_nonneg _ (by omega)
    have h2 : ((g 0 : Nat) : Int) % (1 - (hi - lo + 1)) < 1 - (hi - lo + 1) :=
      Int.emod_lt_of_pos _ (by omega)
    omega

lemma randomInt_fst_of_le {lo hi : Int} (h : lo ≤ hi) (g : Rng) :
    lo ≤ (randomInt lo hi g).1 ∧ (randomInt lo hi g).1 ≤ hi :=
  (randomInt_bounds lo hi g).1 h

lemma randomInt_fst_pos {lo hi : Int} (hlo : 1 ≤ lo) (hhi : 1 ≤ hi) (g : Rng) :
    1 ≤ (randomInt lo hi g).1 := by
  have := randomInt_bounds lo hi g
  rcases lt_trichotomy (hi + 1) lo with hc | hc | hc
  · exact le_trans (by omega) (this.2.2 hc).1
  · rw [this.2.1 hc]; omega
  · exact le_trans hlo (this.1 (by omega)).1

/-! ## Challenge generator facts -/

lemma operandRanges_ge_one {d : String} {lo hi : Int}
    (h : operandRanges d = some (lo, hi)) : 1 ≤ lo ∧ 1 ≤ hi := by
  unfold operandRanges at h
  repeat' split at h
  all_goals
    first
      | (simp only [Option.some.injEq, Prod.mk.injEq] at h
         obtain ⟨h1, h2⟩ := h
         omega)
      | exact Option.noConfusion h

lemma generateOperands_ok_of_ranges (op : MathOperation) {d : String}
    {lo hi : Int} (hr : operandRanges d = some (lo, hi)) (g : Rng) :
    ∃ a b g', generateOperands op d g = .ok ((a, b), g') := by
  unfold generateOperands
  rw [hr]
  cases op <;> exact ⟨_, _, _, rfl⟩

lemma generateOperands_div {op : MathOperation} {d : String} {g : Rng}
    {a b : Int} {g' : Rng} (h : generateOperands op d g = .ok ((a, b), g'))
    (hop : op = .division) : b ≠ 0 ∧ a % b = 0 := by
  subst hop
  unfold generateOperands at h
  cases hr : operandRanges d with
  | none => rw [hr] at h; simp at h
  | some p =>
    obtain ⟨lo, hi⟩ := p
    rw [hr] at h
    dsimp only at h
    rcases hdv : randomInt lo (min hi 12) g with ⟨dv, g1⟩
    rw [hdv] at h
    dsimp only at h
    rcases hq : randomInt lo hi g1 with ⟨q, g2⟩
    rw [hq] at h
    dsimp only at h
    simp only [Except.ok.injEq, Prod.mk.injEq] at h
    obtain ⟨⟨ha, hb⟩, -⟩ := h
    obtain ⟨hlo, hhi⟩ := operandRanges_ge_one hr
    have hdv1 : (randomInt lo (min hi 12) g).1 = dv := by rw [hdv]
    have hpos : 1 ≤ dv := by
      rw [← hdv1]
      exact randomInt_fst_pos hlo (le_min hhi (by norm_num)) g
    subst ha hb
    exact ⟨by omega, Int.mul_emod_right _ _⟩

lemma generateRegularChallenge_fields {d : String} {g : Rng}
    {ch : MathChallenge} {g' : Rng}
    (h : generateRegularChallenge d g = .ok (ch, g')) :
    ch.difficulty = d ∧ ch.reward = (rewardMultipliers d).getD 0 ∧
      GoodChallenge ch := by
  unfold generateRegularChallenge at h
  cases hops : allowedOperations d with
  | none => rw [hops] at h; simp at h
  | some ops =>
    rw [hops] at h
    dsimp only at h
    rcases hri : randomInt 0 ((ops.length : Int) - 1) g with ⟨i, g1⟩
    rw [hri] at h
    dsimp only at h
    cases hgen : generateOperands (ops.getD i.toNat .addition) d g1 with
    | error e => rw [hgen] at h; simp at h
    | ok res =>
      obtain ⟨⟨a, b⟩, g2⟩ := res
      rw [hgen] at h
      dsimp only at h
      rcases hsuf : randomInt 1000 9999 g2 with ⟨sfx, g3⟩
      rw [hsuf] at h
      dsimp only at h
      simp only [Except.ok.injEq, Prod.mk.injEq] at h
      obtain ⟨h1, -⟩ := h
      subst h1
      exact ⟨rfl, rfl, rfl, fun hop => generateOperands_div hgen hop⟩

lemma generateRegularChallenge_ok (d : String)
    (h : d = "beginner" ∨ d = "easy" ∨ d = "medium" ∨ d = "hard" ∨ d = "expert")
    (g : Rng) :
    ∃ ch g', generateRegularChallenge d g = .ok (ch, g') := by
  have hops : allowedOperations d =
      some [.addition, .subtraction, .multiplication, .division] := by
    rcases h with rfl | rfl | rfl | rfl | rfl <;> rfl
  have hr : ∃ lo hi, operandRanges d = some (lo, hi) := by
    rcases h with rfl | rfl | rfl | rfl | rfl <;> exact ⟨_, _, rfl⟩
  obtain ⟨lo, hi, hr⟩ := hr
  unfold generateRegularChallenge
  rw [hops]
  dsimp only
  rcases hri : randomInt 0
      ((([MathOperation.addition, .subtraction, .multiplication,
          .division] : List MathOperation).length : Int) - 1) g with ⟨i, g1⟩
  dsimp only
  obtain ⟨a, b, g2, hgen⟩ := generateOperands_ok_of_ranges
    ([MathOperation.addition, .subtraction, .multiplication,
      .division].getD i.toNat .addition) hr g1
  rw [hgen]
  exact ⟨_, _, rfl⟩

lemma generateRegularChallenge_infant_toddler (d : String)
    (h : d = "infant" ∨ d = "toddler") (g : Rng) :
    generateRegularChallenge d g = .error .typeError := by
  have hops : allowedOperations d = some [.addition] := by
    rcases h with rfl | rfl <;> rfl
  have hr : operandRanges d = none := by
    rcases h with rfl | rfl <;> rfl
  unfold generateRegularChallenge
  rw [hops]
  dsimp only
  rcases hri : randomInt 0
      ((([MathOperation.addition] : List MathOperation).length : Int) - 1) g
    with ⟨i, g1⟩
  dsimp only
  have hget : ([MathOperation.addition].getD i.toNat .addition) = .addition := by
    cases i.toNat <;> rfl
  rw [hget]
  unfold generateOperands
  rw [hr]

lemma generateBossChallenge_spec (d nd : String)
    (hnext : getNextDifficulty d = nd)
    (hnd : nd = "beginner" ∨ nd = "easy" ∨ nd = "medium" ∨ nd = "hard" ∨
      nd = "expert") (g : Rng) :
    ∃ ch g', generateBossChallenge d g = .ok (ch, g') ∧ ch.difficulty = nd ∧
      ch.reward = 3 * (rewardMultipliers nd).getD 0 := by
  obtain ⟨ch, g', hch⟩ := generateRegularChallenge_ok nd hnd g
  obtain ⟨hd, hr, -⟩ := generateRegularChallenge_fields hch
  unfold generateBossChallenge
  dsimp only
  rw [hnext, hch]
  dsimp only
  exact ⟨_, _, rfl, hd, by rw [hr]; ring⟩

lemma generateBossChallenge_case (d nd : String)
    (hnext : getNextDifficulty d = nd)
    (hnd : nd = "beginner" ∨ nd = "easy" ∨ nd = "medium" ∨ nd = "hard" ∨
      nd = "expert")
    (hle : 3 * (rewardMultipliers d).getD 0 ≤ 3 * (rewardMultipliers nd).getD 0)
    (g : Rng) :
    ∃ ch g', generateBossChallenge d g = .ok (ch, g') ∧
      ch.difficulty = getNextDifficulty d ∧
      ch.reward = 3 * (rewardMultipliers (getNextDifficulty d)).getD 0 ∧
      ∀ (g2 : Rng) (reg : MathChallenge) (g3 : Rng),
        generateRegularChallenge d g2 = .ok (reg, g3) →
          3 * reg.reward ≤ ch.reward := by
  obtain ⟨ch, g', hok, hdiff, hrw⟩ := generateBossChallenge_spec d nd hnext hnd g
  refine ⟨ch, g', hok, by rw [hnext]; exact hdiff, by rw [hnext]; exact hrw,
    fun g2 reg g3 hreg => ?_⟩
  rw [(generateRegularChallenge_fields hreg).2.1, hrw]
  exact hle

/-- C5 counterexample: `calculateAnswer('subtraction', [1, 2])` is `-1`, not
the absolute difference `1`. -/
theorem c5_counterexample :
    calculateAnswer .subtraction 1 2 ≠ |(1 : ℚ) - 2| := by
  norm_num [calculateAnswer]

/-- C5 (amended): the shared `calculateAnswer` computes the ordered
difference `a - b` for subtraction (which can be negative, and negative
answers are in fact generated: the beginner generator can draw `1 - 5`),
while the `GameContext` `computeAnswer` computes the absolute difference. -/
theorem c5_subtraction_ordered_difference :
    (∀ a b : Int, calculateAnswer .subtraction a b = (a : ℚ) - b ∧
      computeAnswer .subtraction a b = |a - b|) ∧
    ∃ ch g', generateRegularChallenge "beginner" negStream = .ok (ch, g') ∧
      ch.operation = .subtraction ∧ ch.correctAnswer < 0 := by
  constructor
  · exact fun a b => ⟨rfl, (Int.abs_eq_natAbs (a - b)).symm⟩
  · refine ⟨⟨1000, .subtraction, (1, 5), calculateAnswer .subtraction 1 5,
      "beginner", 10⟩, fun n => negStream (n + 4), ?_, rfl, ?_⟩
    · rfl
    · norm_num [calculateAnswer]

/-- C7 counterexample: at the lowest tier the boss generator crashes — the
tier above `"infant"` is `"toddler"`, whose operand-range entry is missing,
so no boss challenge is produced at all. -/
theorem c7_counterexample :
    generateBossChallenge "infant" g0 = .error .typeError := by rfl

/-- C7 (amended): for every tier except `"infant"`, the boss challenge is
generated one tier up (saturating), its reward is three times the reward
table entry of that higher tier, and it is at least three times the reward
of any regular challenge generated at the nominal tier.  At `"infant"` the
generator throws instead (see the counterexample). -/
theorem c7_boss_one_tier_up_triple_reward :
    ∀ d ∈ difficultyProgression, d ≠ "infant" → ∀ g : Rng,
      ∃ ch g', generateBossChallenge d g = .ok (ch, g') ∧
        ch.difficulty = getNextDifficulty d ∧
        ch.reward = 3 * (rewardMultipliers (getNextDifficulty d)).getD 0 ∧
        ∀ (g2 : Rng) (reg : MathChallenge) (g3 : Rng),
          generateRegularChallenge d g2 = .ok (reg, g3) →
            3 * reg.reward ≤ ch.reward := by
  intro d hd hne g
  simp only [difficultyProgression, List.mem_cons, List.not_mem_nil,
    or_false] at hd
  rcases hd with rfl | rfl | rfl | rfl | rfl | rfl | rfl
  · exact absurd rfl hne
  · exact generateBossChallenge_case "toddler" "beginner" rfl (Or.inl rfl)
      (by decide) g
  · exact generateBossChallenge_case "beginner" "easy" rfl
      (Or.inr (Or.inl rfl)) (by decide) g
  · exact generateBossChallenge_case "easy" "medium" rfl
      (Or.inr (Or.inr (Or.inl rfl))) (by decide) g
  · exact generateBossChallenge_case "medium" "hard" rfl
      (Or.inr (Or.inr (Or.inr (Or.inl rfl)))) (by decide) g
  · exact generateBossChallenge_case "hard" "expert" rfl
      (Or.inr (Or.inr (Or.inr (Or.inr rfl)))) (by decide) g
  · exact generateBossChallenge_case "expert" "expert" rfl
      (Or.inr (Or.inr (Or.inr (Or.inr rfl)))) (by decide) g

/-- C7 witness at `d = "beginner"`. -/
theorem c7_witness :
    ∃ ch g', generateBossChallenge "beginner" g0 = .ok (ch, g') ∧
      ch.difficulty = getNextDifficulty "beginner" ∧
      ch.reward = 3 * (rewardMultipliers (getNextDifficulty "beginner")).getD 0 ∧
      ∀ (g2 : Rng) (reg : MathChallenge) (g3 : Rng),
        generateRegularChallenge "beginner" g2 = .ok (reg, g3) →
          3 * reg.reward ≤ ch.reward :=
  c7_boss_one_tier_up_triple_reward "beginner" (by decide) (by decide) g0

/-- C8: the difficulty progression never decreases, climbs one tier per
step from `"infant"` through the table, and is idempotent at the
`"expert"` ceiling. -/
theorem c8_progression_monotone :
    getNextDifficulty "expert" = "expert" ∧
    (∀ k, k < 7 →
      getNextDifficulty^[k] "infant" = difficultyProgression.getD k "") ∧
    (∀ k, 6 ≤ k → getNextDifficulty^[k] "infant" = "expert") ∧
    (∀ d ∈ difficultyProgression,
      jsIndexOf difficultyProgression d ≤
        jsIndexOf difficultyProgression (getNextDifficulty d)) := by
  refine ⟨rfl, by decide, ?_, by decide⟩
  intro k hk
  obtain ⟨j, rfl⟩ : ∃ j, k = 6 + j := ⟨k - 6, by omega⟩
  clear hk
  induction j with
  | zero => decide
  | succ j ih =>
    have hstep : (6 + (j + 1)) = (6 + j) + 1 := rfl
    rw [hstep, Function.iterate_succ_apply', ih]
    rfl

/-- C8 witness: three steps from `"infant"` reach `"easy"`, and far
iterates stay at `"expert"`. -/
theorem c8_witness :
    getNextDifficulty^[3] "infant" = difficultyProgression.getD 3 "" ∧
    getNextDifficulty^[9] "infant" = "expert" :=
  ⟨c8_progression_monotone.2.1 3 (by decide),
    c8_progression_monotone.2.2.1 9 (by decide)⟩

/-! ## Grid basics -/

lemma getD_set_self {α : Type} (l : List α) (i : Nat) (a d : α)
    (h : i < l.length) : (l.set i a).getD i d = a := by
  rw [List.getD_eq_getElem?_getD, List.getElem?_set_eq_of_lt _ h,
    Option.getD_some]

lemma getD_set_ne {α : Type} (l : List α) {i j : Nat} (a d : α) (h : i ≠ j) :
    (l.set i a).getD j d = l.getD j d := by
  rw [List.getD_eq_getElem?_getD, List.getElem?_set_ne h,
    ← List.getD_eq_getElem?_getD]

lemma getD_replicate {α : Type} (n i : Nat) (a d : α) :
    (List.replicate n a).getD i d = if i < n then a else d := by
  rw [List.getD_eq_getElem?_getD, List.getElem?_replicate]
  split <;> rfl

lemma gridDims_mkMaze (w h : Int) : gridDims w.toNat h.toNat (mkMaze w h) := by
  refine ⟨by simp [mkMaze], fun row hrow => ?_⟩
  rw [List.eq_of_mem_replicate hrow]
  simp

lemma getCell_of_nonneg {mz : Maze} {x y : Int} (hx : 0 ≤ x) (hy : 0 ≤ y) :
    getCell mz x y = (mz.getD y.toNat []).getD x.toNat false := by
  unfold getCell
  rw [if_pos ⟨hx, hy⟩]

lemma getCell_neg {mz : Maze} {x y : Int} (h : ¬(0 ≤ x ∧ 0 ≤ y)) :
    getCell mz x y = false := by
  unfold getCell
  rw [if_neg h]

lemma getCell_mkMaze (w h x y : Int) : getCell (mkMaze w h) x y = false := by
  unfold getCell mkMaze
  split
  · rw [getD_replicate]
    split
    · rw [getD_replicate]
      split <;> rfl
    · rfl
  · rfl

lemma row_len {α : Type} {w h : Nat} {G : List (List α)}
    (hd : gridDims w h G) {y : Nat} (hy : y < h) :
    (G.getD y []).length = w := by
  obtain ⟨hl, hrows⟩ := hd
  have hy' : y < G.length := by omega
  rw [List.getD_eq_getElem?_getD, List.getElem?_eq_getElem hy']
  exact hrows _ (List.getElem_mem hy')

lemma mazeLe_refl (mz : Maze) : mazeLe mz mz := fun _ _ h => h

lemma mazeLe_trans {m1 m2 m3 : Maze} (h1 : mazeLe m1 m2) (h2 : mazeLe m2 m3) :
    mazeLe m1 m3 := fun x y h => h2 x y (h1 x y h)

/-! ## Element writes -/

lemma setTrue_spec {w h : Nat} {mz : Maze} {x y : Int} (hd : gridDims w h mz)
    (hb : inBounds w h x y) :
    ∃ mz', setTrue mz x y = .ok mz' ∧ gridDims w h mz' ∧
      getCell mz' x y = true ∧
      ∀ a b : Int, ¬(a = x ∧ b = y) → getCell mz' a b = getCell mz a b := by
  obtain ⟨hx0, hxw, hy0, hyh⟩ := hb
  have hl : mz.length = h := hd.1
  have hylen : y.toNat < mz.length := by omega
  have hrowlen : (mz.getD y.toNat []).length = w := row_len hd (by omega)
  have hsrt : setRowTrue (mz.getD y.toNat []) x.toNat =
      (mz.getD y.toNat []).set x.toNat true := by
    unfold setRowTrue
    rw [if_pos (by omega)]
  have hstep : setTrue mz x y =
      .ok (mz.set y.toNat ((mz.getD y.toNat []).set x.toNat true)) := by
    unfold setTrue
    rw [if_pos ⟨hy0, hylen⟩, if_pos hx0, hsrt]
  refine ⟨_, hstep, ⟨by simp [hl], fun row hrow => ?_⟩, ?_, ?_⟩
  · rcases List.mem_or_eq_of_mem_set hrow with hmem | heq
    · exact hd.2 row hmem
    · rw [heq, List.length_set]
      exact hrowlen
  · rw [getCell_of_nonneg hx0 hy0, getD_set_self _ _ _ _ hylen,
      getD_set_self _ _ _ _ (by omega)]
  · intro a b hne
    by_cases hab : 0 ≤ a ∧ 0 ≤ b
    · obtain ⟨ha0, hb0⟩ := hab
      rw [getCell_of_nonneg ha0 hb0, getCell_of_nonneg ha0 hb0]
      by_cases hby : b = y
      · subst hby
        have hax : a ≠ x := fun hc => hne ⟨hc, rfl⟩
        have hax' : x.toNat ≠ a.toNat := fun hc => hax (by omega)
        rw [getD_set_self _ _ _ _ hylen, getD_set_ne _ _ _ hax']
      · have hby' : b.toNat ≠ y.toNat := fun hc => hby (by omega)
        rw [getD_set_ne _ _ _ (Ne.symm hby')]
    · rw [getCell_neg hab, getCell_neg hab]

lemma setTrue_mazeLe {mz mz' : Maze} {x y : Int}
    (htrue : getCell mz' x y = true)
    (hunch : ∀ a b : Int, ¬(a = x ∧ b = y) → getCell mz' a b = getCell mz a b) :
    mazeLe mz mz' := by
  intro a b hab
  by_cases hc : a = x ∧ b = y
  · obtain ⟨rfl, rfl⟩ := hc
    exact htrue
  · rw [hunch a b hc]
    exact hab

/-! ## Closed-cell counting -/

lemma closedCount_le_of_mazeLe {w h : Nat} {mz mz' : Maze}
    (hle : mazeLe mz mz') : closedCount w h mz' ≤ closedCount w h mz := by
  apply Finset.card_le_card
  intro p hp
  simp only [closedCount, Finset.mem_filter] at hp ⊢
  refine ⟨hp.1, ?_⟩
  cases hcase : getCell mz (p.2 : Int) (p.1 : Int) with
  | false => rfl
  | true => exact absurd (hle _ _ hcase) (by simp [hp.2])

lemma closedCount_lt_of_open {w h : Nat} {mz mz' : Maze} {x y : Int}
    (hb : inBounds w h x y) (hfalse : getCell mz x y = false)
    (htrue : getCell mz' x y = true) (hle : mazeLe mz mz') :
    closedCount w h mz' < closedCount w h mz := by
  apply Finset.card_lt_card
  rw [Finset.ssubset_def]
  constructor
  · intro p hp
    simp only [closedCount, Finset.mem_filter] at hp ⊢
    refine ⟨hp.1, ?_⟩
    cases hcase : getCell mz (p.2 : Int) (p.1 : Int) with
    | false => rfl
    | true => exact absurd (hle _ _ hcase) (by simp [hp.2])
  · intro hsub
    obtain ⟨hx0, hxw, hy0, hyh⟩ := hb
    have hmem : (y.toNat, x.toNat) ∈
        (Finset.range h ×ˢ Finset.range w).filter
          (fun p => getCell mz (p.2 : Int) (p.1 : Int) = false) := by
      simp only [Finset.mem_filter, Finset.mem_product, Finset.mem_range]
      refine ⟨⟨hyh, hxw⟩, ?_⟩
      rwa [Int.toNat_of_nonneg hx0, Int.toNat_of_nonneg hy0]
    have hin := hsub hmem
    simp only [closedCount, Finset.mem_filter, Int.toNat_of_nonneg hx0,
      Int.toNat_of_nonneg hy0] at hin
    rw [htrue] at hin
    exact absurd hin.2 (by simp)

lemma closedCount_le_total (w h : Nat) (mz : Maze) :
    closedCount w h mz ≤ h * w := by
  calc closedCount w h mz ≤ (Finset.range h ×ˢ Finset.range w).card :=
        Finset.card_filter_le _ _
    _ = h * w := by simp [Finset.card_product]

/-! ## Shuffle permutations -/

lemma perm_cons_eraseIdx {α : Type} (l : List α) {i : Nat} (h : i < l.length) :
    l.Perm (l[i] :: l.eraseIdx i) := by
  rw [List.eraseIdx_eq_take_drop_succ]
  conv_lhs => rw [← List.take_append_drop i l, List.drop_eq_getElem_cons h]
  exact List.perm_middle

lemma shuffleAux_perm {α : Type} [Inhabited α] :
    ∀ (n : Nat) (l : List α) (g : Rng), n = l.length →
      (shuffleAux n l g).1.Perm l := by
  intro n
  induction n with
  | zero =>
    intro l g hl
    rw [List.length_eq_zero.mp hl.symm]
    exact List.Perm.refl _
  | succ n ih =>
    intro l g hl
    match l with
    | [] => exact List.Perm.refl _
    | x :: xs =>
      unfold shuffleAux
      dsimp only
      have hi : (randDraw g).1 % (x :: xs).length < (x :: xs).length :=
        Nat.mod_lt _ (by simp)
      have hgetD : (x :: xs).getD ((randDraw g).1 % (x :: xs).length) x =
          (x :: xs)[(randDraw g).1 % (x :: xs).length] :=
        List.getD_eq_getElem _ _ hi
      have hlen : n = ((x :: xs).eraseIdx ((randDraw g).1 % (x :: xs).length)).length := by
        have := List.length_eraseIdx_add_one hi
        simp only [List.length_cons] at hl this ⊢
        omega
      have hperm := ih _ (randDraw g).2 hlen
      rw [hgetD]
      exact (hperm.cons _).trans (perm_cons_eraseIdx _ hi).symm

lemma shuffleJs_perm {α : Type} [Inhabited α] (l : List α) (g : Rng) :
    (shuffleJs l g).1.Perm l :=
  shuffleAux_perm _ _ _ rfl

/-! ## Carving stays in bounds, terminates and only opens cells -/

lemma isValid_inBounds {w h x y : Int} (hv : isValid w h x y) :
    inBounds w.toNat h.toNat x y := by
  unfold isValid at hv
  unfold inBounds
  omega

lemma wall_step_facts {w h x y dx dy : Int}
    (hd : (dx, dy) ∈ carveDirections)
    (hv : isValid w h x y) (hvn : isValid w h (x + dx) (y + dy)) :
    isValid w h (x + dx / 2) (y + dy / 2) ∧
      ¬(x + dx = x + dx / 2 ∧ y + dy = y + dy / 2) := by
  simp only [carveDirections, List.mem_cons, List.not_mem_nil, or_false,
    Prod.mk.injEq] at hd
  unfold isValid at *
  rcases hd with ⟨rfl, rfl⟩ | ⟨rfl, rfl⟩ | ⟨rfl, rfl⟩ | ⟨rfl, rfl⟩ <;>
    norm_num <;> omega

lemma carvePath_spec :
    ∀ (f : Nat) (w h : Int) (mz : Maze) (x y : Int) (g : Rng),
      gridDims w.toNat h.toNat mz → isValid w h x y →
      getCell mz x y = false →
      closedCount w.toNat h.toNat mz < f →
      ∃ mz' g', carvePath f w h mz x y g = .ok (mz', g') ∧
        gridDims w.toNat h.toNat mz' ∧ mazeLe mz mz' ∧
        closedCount w.toNat h.toNat mz' ≤ closedCount w.toNat h.toNat mz := by
  intro f
  induction f with
  | zero =>
    intro w h mz x y g _ _ _ hcc
    omega
  | succ f ih =>
    intro w h mz x y g hd hv hfalse hcc
    obtain ⟨mz1, hset, hd1, htrue1, hunch1⟩ := setTrue_spec hd (isValid_inBounds hv)
    have hle1 : mazeLe mz mz1 := setTrue_mazeLe htrue1 hunch1
    have hlt1 : closedCount w.toNat h.toNat mz1 < closedCount w.toNat h.toNat mz :=
      closedCount_lt_of_open (isValid_inBounds hv) hfalse htrue1 hle1
    have hcc1 : closedCount w.toNat h.toNat mz1 < f := by omega
    rcases hsh : shuffleJs carveDirections g with ⟨dirs, g1⟩
    have hdirs : ∀ d ∈ dirs, d ∈ carveDirections := by
      intro d hdm
      have hperm := shuffleJs_perm carveDirections g
      rw [hsh] at hperm
      exact hperm.mem_iff.mp hdm
    have inner : ∀ (ds : List (Int × Int)), (∀ d ∈ ds, d ∈ carveDirections) →
        ∀ (mzc : Maze) (gc : Rng), gridDims w.toNat h.toNat mzc →
          closedCount w.toNat h.toNat mzc < f →
          ∃ mz' g',
            carveDirs (fun m a b r => carvePath f w h m a b r) w h mzc x y ds gc =
              .ok (mz', g') ∧
            gridDims w.toNat h.toNat mz' ∧ mazeLe mzc mz' ∧
            closedCount w.toNat h.toNat mz' ≤ closedCount w.toNat h.toNat mzc := by
      intro ds
      induction ds with
      | nil =>
        intro _ mzc gc hdc hccc
        exact ⟨mzc, gc, rfl, hdc, mazeLe_refl _, le_refl _⟩
      | cons d rest ihd =>
        intro hsub mzc gc hdc hccc
        obtain ⟨dx, dy⟩ := d
        have hsubrest : ∀ d ∈ rest, d ∈ carveDirections :=
          fun d hdm => hsub d (List.mem_cons_of_mem _ hdm)
        by_cases hcond :
            isValid w h (x + dx) (y + dy) ∧ getCell mzc (x + dx) (y + dy) = false
        · have hdmem : (dx, dy) ∈ carveDirections := hsub _ (List.mem_cons_self _ _)
          obtain ⟨hwall, hneq⟩ := wall_step_facts hdmem hv hcond.1
          obtain ⟨mzw, hsetw, hdw, htruew, hunchw⟩ :=
            setTrue_spec hdc (isValid_inBounds hwall)
          have hlew : mazeLe mzc mzw := setTrue_mazeLe htruew hunchw
          have hccw : closedCount w.toNat h.toNat mzw ≤
              closedCount w.toNat h.toNat mzc := closedCount_le_of_mazeLe hlew
          have hfalsew : getCell mzw (x + dx) (y + dy) = false := by
            rw [hunchw _ _ hneq]
            exact hcond.2
          obtain ⟨mzr, gr, hrec, hdr, hler, hccr⟩ :=
            ih w h mzw (x + dx) (y + dy) gc hdw hcond.1 hfalsew (by omega)
          obtain ⟨mz', g', hrest, hd', hle', hcc'⟩ :=
            ihd hsubrest mzr gr hdr (by omega)
          refine ⟨mz', g', ?_, hd',
            mazeLe_trans hlew (mazeLe_trans hler hle'), by omega⟩
          show carveDirs _ w h mzc x y ((dx, dy) :: rest) gc = _
          unfold carveDirs
          rw [if_pos hcond, hsetw]
          dsimp only
          rw [hrec]
          dsimp only
          exact hrest
        · obtain ⟨mz', g', hrest, hd', hle', hcc'⟩ :=
            ihd hsubrest mzc gc hdc hccc
          refine ⟨mz', g', ?_, hd', hle', hcc'⟩
          show carveDirs _ w h mzc x y ((dx, dy) :: rest) gc = _
          unfold carveDirs
          rw [if_neg hcond]
          exact hrest
    obtain ⟨mz', g', hrun, hd', hle', hcc'⟩ := inner dirs hdirs mz1 g1 hd1 hcc1
    refine ⟨mz', g', ?_, hd', mazeLe_trans hle1 hle', by omega⟩
    unfold carvePath
    rw [hset]
    dsimp only
    rw [hsh]
    dsimp only
    exact hrun

/-! ## Connectivity facts -/

lemma conn_open_left {mz : Maze} {p r : Pos} (h : Conn mz p r) :
    getCell mz p.x p.y = true := by
  cases h with
  | refl _ hopen => exact hopen
  | step _ _ _ hopen _ _ => exact hopen

lemma conn_open_right {mz : Maze} {p r : Pos} (h : Conn mz p r) :
    getCell mz r.x r.y = true := by
  induction h with
  | refl _ hopen => exact hopen
  | step _ _ _ _ _ _ ih => exact ih

lemma conn_mono {m1 m2 : Maze} (hle : mazeLe m1 m2) {p r : Pos}
    (h : Conn m1 p r) : Conn m2 p r := by
  induction h with
  | refl q hopen => exact Conn.refl q (hle _ _ hopen)
  | step p q r hopen hadj _ ih => exact Conn.step p q r (hle _ _ hopen) hadj ih

lemma conn_snoc {mz : Maze} {a b c : Pos} (h : Conn mz a b)
    (hadj : adjacent b c) (hopen : getCell mz c.x c.y = true) :
    Conn mz a c := by
  induction h with
  | refl q hq => exact Conn.step q c c hq hadj (Conn.refl c hopen)
  | step p q r hp hpq _ ih => exact Conn.step p q c hp hpq (ih hadj)

/-! ## BFS soundness and fuel sufficiency -/

lemma setTrueClip_spec {w h : Nat} {visited : Maze} {x y : Int}
    (hd : gridDims w h visited) (hb : inBounds w h x y) :
    gridDims w h (setTrueClip visited x y) ∧
      getCell (setTrueClip visited x y) x y = true ∧
      ∀ a b : Int, ¬(a = x ∧ b = y) →
        getCell (setTrueClip visited x y) a b = getCell visited a b := by
  obtain ⟨v', hset, hd', htrue, hunch⟩ := setTrue_spec hd hb
  unfold setTrueClip
  rw [hset]
  exact ⟨hd', htrue, hunch⟩

lemma bfsDeltas_adjacent {dx dy : Int} (hd : (dx, dy) ∈ bfsDeltas)
    (cur : Pos) : adjacent cur ⟨cur.x + dx, cur.y + dy⟩ := by
  simp only [bfsDeltas, List.mem_cons, List.not_mem_nil, or_false,
    Prod.mk.injEq] at hd
  unfold adjacent
  rcases hd with ⟨rfl, rfl⟩ | ⟨rfl, rfl⟩ | ⟨rfl, rfl⟩ | ⟨rfl, rfl⟩ <;>
    simp

lemma bfsExpand_spec (w h : Int) (mz : Maze) (cur : Pos) :
    ∀ (ds : List (Int × Int)) (visited : Maze) (queue : List Pos),
      (∀ d ∈ ds, d ∈ bfsDeltas) →
      gridDims w.toNat h.toNat visited →
      ∃ visited' extra,
        bfsExpand w h mz cur ds visited queue = (visited', queue ++ extra) ∧
        gridDims w.toNat h.toNat visited' ∧
        (∀ p ∈ extra, getCell mz p.x p.y = true ∧ adjacent cur p) ∧
        extra.length + 2 * closedCount w.toNat h.toNat visited' ≤
          2 * closedCount w.toNat h.toNat visited := by
  intro ds
  induction ds with
  | nil =>
    intro visited queue _ hd
    exact ⟨visited, [], by simp [bfsExpand], hd, by simp, by simp⟩
  | cons d rest ihd =>
    intro visited queue hsub hd
    obtain ⟨dx, dy⟩ := d
    have hsubrest : ∀ d ∈ rest, d ∈ bfsDeltas :=
      fun d hdm => hsub d (List.mem_cons_of_mem _ hdm)
    by_cases hcond :
        (0 ≤ cur.x + dx ∧ cur.x + dx < w ∧ 0 ≤ cur.y + dy ∧ cur.y + dy < h) ∧
          getCell visited (cur.x + dx) (cur.y + dy) = false ∧
          getCell mz (cur.x + dx) (cur.y + dy) = true
    · have hb : inBounds w.toNat h.toNat (cur.x + dx) (cur.y + dy) := by
        unfold inBounds
        obtain ⟨hbi, -, -⟩ := hcond
        omega
      obtain ⟨hd1, htrue1, hunch1⟩ := setTrueClip_spec hd hb
      have hle1 : mazeLe visited (setTrueClip visited (cur.x + dx) (cur.y + dy)) :=
        setTrue_mazeLe htrue1 hunch1
      have hlt1 : closedCount w.toNat h.toNat
            (setTrueClip visited (cur.x + dx) (cur.y + dy)) <
          closedCount w.toNat h.toNat visited :=
        closedCount_lt_of_open hb hcond.2.1 htrue1 hle1
      obtain ⟨visited', extra, heq, hd', hprops, hlen⟩ :=
        ihd (setTrueClip visited (cur.x + dx) (cur.y + dy))
          (queue ++ [⟨cur.x + dx, cur.y + dy⟩]) hsubrest hd1
      refine ⟨visited', ⟨cur.x + dx, cur.y + dy⟩ :: extra, ?_, hd', ?_,
        by simp only [List.length_cons]; omega⟩
      · show bfsExpand w h mz cur ((dx, dy) :: rest) visited queue = _
        unfold bfsExpand
        rw [if_pos hcond, heq, List.append_assoc]
        rfl
      · intro p hp
        rcases List.mem_cons.mp hp with rfl | hp
        · exact ⟨hcond.2.2, bfsDeltas_adjacent (hsub _ (List.mem_cons_self _ _)) cur⟩
        · exact hprops p hp
    · obtain ⟨visited', extra, heq, hd', hprops, hlen⟩ :=
        ihd visited queue hsubrest hd
      refine ⟨visited', extra, ?_, hd', hprops, hlen⟩
      show bfsExpand w h mz cur ((dx, dy) :: rest) visited queue = _
      unfold bfsExpand
      rw [if_neg hcond, heq]

lemma bfsLoop_spec :
    ∀ (f : Nat) (w h : Int) (mz : Maze) (dest : Pos) (visited : Maze)
      (queue : List Pos) (start : Pos),
      gridDims w.toNat h.toNat visited →
      (∀ p ∈ queue, getCell mz p.x p.y = true ∧ Conn mz start p) →
      queue.length + 2 * closedCount w.toNat h.toNat visited < f →
      ∃ b, bfsLoop f w h mz dest visited queue = .ok b ∧
        (b = true → Conn mz start dest) := by
  intro f
  induction f with
  | zero =>
    intro w h mz dest visited queue start _ _ hm
    omega
  | succ f ih =>
    intro w h mz dest visited queue start hd hq hm
    match queue with
    | [] => exact ⟨false, rfl, by simp⟩
    | cur :: rest =>
      by_cases hcond : cur.x = dest.x ∧ cur.y = dest.y
      · have hcd : cur = dest := by
          cases cur
          cases dest
          simp only at hcond
          simp [hcond.1, hcond.2]
        refine ⟨true, ?_, fun _ => hcd ▸ (hq cur (List.mem_cons_self _ _)).2⟩
        unfold bfsLoop
        dsimp only
        rw [if_pos hcond]
      · obtain ⟨visited', extra, hexp, hd', hprops, hlen⟩ :=
          bfsExpand_spec w h mz cur bfsDeltas visited rest (fun _ hd => hd) hd
        have hq' : ∀ p ∈ rest ++ extra,
            getCell mz p.x p.y = true ∧ Conn mz start p := by
          intro p hp
          rcases List.mem_append.mp hp with hp | hp
          · exact hq p (List.mem_cons_of_mem _ hp)
          · obtain ⟨hopen, hadj⟩ := hprops p hp
            exact ⟨hopen,
              conn_snoc (hq cur (List.mem_cons_self _ _)).2 hadj hopen⟩
        obtain ⟨b, hloop, hconn⟩ := ih w h mz dest visited' (rest ++ extra) start
          hd' hq' (by simp only [List.length_append, List.length_cons] at hm ⊢; omega)
        refine ⟨b, ?_, hconn⟩
        unfold bfsLoop
        dsimp only
        rw [if_neg hcond, hexp]
        dsimp only
        exact hloop

lemma isPathAvailable_spec {w h : Int} (mz : Maze) (start dest : Pos)
    (hb : inBounds w.toNat h.toNat start.x start.y)
    (hopen : getCell mz start.x start.y = true) :
    ∃ b, isPathAvailable mz start dest w h = .ok b ∧
      (b = true → Conn mz start dest) := by
  obtain ⟨visited, hset, hd, htrue, hunch⟩ :=
    setTrue_spec (gridDims_mkMaze w h) hb
  have hcc : closedCount w.toNat h.toNat visited ≤ h.toNat * w.toNat :=
    closedCount_le_total _ _ _
  have hcomm : h.toNat * w.toNat = w.toNat * h.toNat := Nat.mul_comm _ _
  obtain ⟨b, hloop, hconn⟩ := bfsLoop_spec (2 * (w.toNat * h.toNat) + 2) w h mz
    dest visited [start] start hd
    (fun p hp => by
      rcases List.mem_singleton.mp hp with rfl
      exact ⟨hopen, Conn.refl p hopen⟩)
    (by simp only [List.length_singleton]; omega)
  refine ⟨b, ?_, hconn⟩
  unfold isPathAvailable
  rw [hset]
  exact hloop

/-! ## Fallback corridor correctness -/

lemma fallbackLoop_spec :
    ∀ (f : Nat) (mz : Maze) (cx cy : Int) (dest : Pos) (g : Rng) (w h : Nat),
      gridDims w h mz → inBounds w h cx cy → inBounds w h dest.x dest.y →
      getCell mz cx cy = true →
      (dest.x - cx).natAbs + (dest.y - cy).natAbs < f →
      ∃ mz' g', fallbackLoop f mz cx cy dest g = .ok (mz', g') ∧
        gridDims w h mz' ∧ mazeLe mz mz' ∧ Conn mz' ⟨cx, cy⟩ dest := by
  intro f
  induction f with
  | zero =>
    intro mz cx cy dest g w h _ _ _ _ hdist
    omega
  | succ f ih =>
    intro mz cx cy dest g w h hd hbc hbd hopen hdist
    by_cases hcond : cx = dest.x ∧ cy = dest.y
    · have hcd : dest = ⟨cx, cy⟩ := by
        cases dest
        simp only at hcond
        simp [hcond.1, hcond.2]
      refine ⟨mz, g, ?_, hd, mazeLe_refl _, by rw [hcd]; exact Conn.refl _ hopen⟩
      unfold fallbackLoop
      rw [if_pos hcond]
    · set cands : List Pos :=
        (if cx ≠ dest.x then [⟨cx + (if cx < dest.x then 1 else -1), cy⟩] else []) ++
        (if cy ≠ dest.y then [⟨cx, cy + (if cy < dest.y then 1 else -1)⟩] else [])
        with hcands
      have hprops : ∀ p ∈ cands, adjacent ⟨cx, cy⟩ p ∧ inBounds w h p.x p.y ∧
          (dest.x - p.x).natAbs + (dest.y - p.y).natAbs + 1 =
            (dest.x - cx).natAbs + (dest.y - cy).natAbs := by
        intro p hp
        rw [hcands] at hp
        rcases List.mem_append.mp hp with hp | hp
        · rcases Decidable.em (cx ≠ dest.x) with hne | hne
          · rw [if_pos hne] at hp
            rcases List.mem_singleton.mp hp with rfl
            unfold inBounds at hbc hbd ⊢
            unfold adjacent
            constructor
            · dsimp only
              split <;> simp
            · dsimp only
              constructor
              · split <;> omega
              · split <;> omega
          · rw [if_neg hne] at hp
            exact absurd hp (List.not_mem_nil _)
        · rcases Decidable.em (cy ≠ dest.y) with hne | hne
          · rw [if_pos hne] at hp
            rcases List.mem_singleton.mp hp with rfl
            unfold inBounds at hbc hbd ⊢
            unfold adjacent
            constructor
            · dsimp only
              split <;> simp
            · dsimp only
              constructor
              · split <;> omega
              · split <;> omega
          · rw [if_neg hne] at hp
            exact absurd hp (List.not_mem_nil _)
      have hlen : 1 ≤ cands.length := by
        rw [hcands]
        rcases Decidable.not_and_iff_or_not.mp hcond with hne | hne
        · rw [if_pos hne]
          simp
        · rw [if_pos hne]
          simp
      have hidx := randomInt_fst_of_le
        (show (0 : Int) ≤ (cands.length : Int) - 1 by omega) g
      have hixlt : (randomInt 0 ((cands.length : Int) - 1) g).1.toNat <
          cands.length := by omega
      have hmem : cands.getD (randomInt 0 ((cands.length : Int) - 1) g).1.toNat
          ⟨cx, cy⟩ ∈ cands := by
        rw [List.getD_eq_getElem _ _ hixlt]
        exact List.getElem_mem hixlt
      obtain ⟨hadj, hbn, hdec⟩ := hprops _ hmem
      obtain ⟨mzn, hsetn, hdn, htruen, hunchn⟩ := setTrue_spec hd hbn
      have hlen2 : mazeLe mz mzn := setTrue_mazeLe htruen hunchn
      obtain ⟨mz', g', hrec, hd', hle', hconn'⟩ := ih mzn
        (cands.getD (randomInt 0 ((cands.length : Int) - 1) g).1.toNat ⟨cx, cy⟩).x
        (cands.getD (randomInt 0 ((cands.length : Int) - 1) g).1.toNat ⟨cx, cy⟩).y
        dest (randomInt 0 ((cands.length : Int) - 1) g).2 w h hdn
        (by exact hbn) hbd (by exact htruen) (by omega)
      refine ⟨mz', g', ?_, hd', mazeLe_trans hlen2 hle', ?_⟩
      · unfold fallbackLoop
        rw [if_neg hcond]
        dsimp only
        rw [← hcands, hsetn]
        dsimp only
        exact hrec
      · exact Conn.step _ _ _ (hle' _ _ (hlen2 _ _ hopen)) hadj hconn'

lemma carveFallbackPath_spec {w h : Nat} {mz : Maze} {start dest : Pos}
    (g : Rng) (hd : gridDims w h mz)
    (hbs : inBounds w h start.x start.y)
    (hbd : inBounds w h dest.x dest.y) :
    ∃ mz' g', carveFallbackPath mz start dest g = .ok (mz', g') ∧
      gridDims w h mz' ∧ mazeLe mz mz' ∧ Conn mz' start dest := by
  obtain ⟨mz1, hset1, hd1, htrue1, hunch1⟩ := setTrue_spec hd hbs
  have hle1 : mazeLe mz mz1 := setTrue_mazeLe htrue1 hunch1
  obtain ⟨mz2, g2, hloop, hd2, hle2, hconn2⟩ := fallbackLoop_spec
    ((dest.x - start.x).natAbs + (dest.y - start.y).natAbs + 1) mz1
    start.x start.y dest g w h hd1 hbs hbd htrue1 (by omega)
  obtain ⟨mz3, hset3, hd3, htrue3, hunch3⟩ := setTrue_spec hd2 hbd
  have hle3 : mazeLe mz2 mz3 := setTrue_mazeLe htrue3 hunch3
  refine ⟨mz3, g2, ?_, hd3, mazeLe_trans hle1 (mazeLe_trans hle2 hle3), ?_⟩
  · unfold carveFallbackPath
    rw [hset1]
    dsimp only
    rw [hloop]
    dsimp only
    rw [hset3]
  · have : Conn mz3 ⟨start.x, start.y⟩ dest := conn_mono hle3 hconn2
    exact this

/-! ## Extra openings stay in bounds and only open cells -/

lemma extraLoop_spec :
    ∀ (n : Nat) (mz : Maze) (w h : Int) (g : Rng),
      gridDims w.toNat h.toNat mz → 2 ≤ w → 2 ≤ h →
      ∃ mz' g', extraLoop n mz w h g = .ok (mz', g') ∧
        gridDims w.toNat h.toNat mz' ∧ mazeLe mz mz' := by
  intro n
  induction n with
  | zero =>
    intro mz w h g hd _ _
    exact ⟨mz, g, rfl, hd, mazeLe_refl _⟩
  | succ n ih =>
    intro mz w h g hd hw hh
    have hxb : 1 ≤ (randomInt 1 (w - 2) g).1 ∧ (randomInt 1 (w - 2) g).1 < w := by
      have := randomInt_bounds 1 (w - 2) g
      rcases lt_trichotomy (w - 2 + 1) 1 with hc | hc | hc
      · omega
      · rw [this.2.1 hc]
        omega
      · have := this.1 (by omega)
        omega
    have hyb : 1 ≤ (randomInt 1 (h - 2) (randomInt 1 (w - 2) g).2).1 ∧
        (randomInt 1 (h - 2) (randomInt 1 (w - 2) g).2).1 < h := by
      have := randomInt_bounds 1 (h - 2) (randomInt 1 (w - 2) g).2
      rcases lt_trichotomy (h - 2 + 1) 1 with hc | hc | hc
      · omega
      · rw [this.2.1 hc]
        omega
      · have := this.1 (by omega)
        omega
    obtain ⟨mz1, hset, hd1, htrue, hunch⟩ := setTrue_spec hd
      (show inBounds w.toNat h.toNat (randomInt 1 (w - 2) g).1
          (randomInt 1 (h - 2) (randomInt 1 (w - 2) g).2).1 by
        unfold inBounds
        omega)
    obtain ⟨mz', g', hrec, hd', hle'⟩ := ih mz1 w h
      (randomInt 1 (h - 2) (randomInt 1 (w - 2) g).2).2 hd1 hw hh
    refine ⟨mz', g', ?_, hd', mazeLe_trans (setTrue_mazeLe htrue hunch) hle'⟩
    unfold extraLoop
    dsimp only
    rw [hset]
    dsimp only
    exact hrec

lemma addExtraOpenings_spec {mz : Maze} {w h : Int} (g : Rng)
    (hd : gridDims w.toNat h.toNat mz) (hw : 2 ≤ w) (hh : 2 ≤ h) :
    ∃ mz' g', addExtraOpenings mz w h g = .ok (mz', g') ∧
      gridDims w.toNat h.toNat mz' ∧ mazeLe mz mz' :=
  extraLoop_spec _ mz w h g hd hw hh

/-! ## The maze generator returns a connected grid -/

lemma generateMazePaths_spec (w h : Int) (g : Rng) (hw : 2 ≤ w) (hh : 2 ≤ h)
    (hhe : h % 2 = 0) :
    ∃ mz g', generateMazePaths w h ⟨0, h - 1⟩ ⟨w - 1, 0⟩ g = .ok (mz, g') ∧
      gridDims w.toNat h.toNat mz ∧ Conn mz ⟨0, h - 1⟩ ⟨w - 1, 0⟩ := by
  have hmulcomm : h.toNat * w.toNat = w.toNat * h.toNat := Nat.mul_comm _ _
  have hccmk : closedCount w.toNat h.toNat (mkMaze w h) <
      w.toNat * h.toNat + 1 := by
    have := closedCount_le_total w.toNat h.toNat (mkMaze w h)
    omega
  obtain ⟨mz1, g1, hcarve, hd1, hle1, hcc1⟩ := carvePath_spec
    (w.toNat * h.toNat + 1) w h (mkMaze w h) 1 (h - 1) g
    (gridDims_mkMaze w h)
    (by unfold isValid; omega)
    (getCell_mkMaze w h 1 (h - 1)) hccmk
  obtain ⟨mz2, hset2, hd2, htrue2, hunch2⟩ := setTrue_spec hd1
    (show inBounds w.toNat h.toNat (0 : Int) (h - 1) by unfold inBounds; omega)
  obtain ⟨mz3, hset3, hd3, htrue3, hunch3⟩ := setTrue_spec hd2
    (show inBounds w.toNat h.toNat (w - 1) (0 : Int) by unfold inBounds; omega)
  have hsopen : getCell mz3 (0 : Int) (h - 1) = true := by
    rw [hunch3 0 (h - 1) (fun hc => by omega)]
    exact htrue2
  have hbs : inBounds w.toNat h.toNat (Pos.mk 0 (h - 1)).x (Pos.mk 0 (h - 1)).y := by
    unfold inBounds
    dsimp only
    omega
  have hbd : inBounds w.toNat h.toNat (Pos.mk (w - 1) 0).x (Pos.mk (w - 1) 0).y := by
    unfold inBounds
    dsimp only
    omega
  obtain ⟨b, hbfs, hbconn⟩ := isPathAvailable_spec mz3 ⟨0, h - 1⟩ ⟨w - 1, 0⟩
    hbs hsopen
  have hfix : ∃ mz4 g4,
      (if b then pure (mz3, g1) else carveFallbackPath mz3 ⟨0, h - 1⟩ ⟨w - 1, 0⟩ g1) =
        (.ok (mz4, g4) : Except JsErr (Maze × Rng)) ∧
      gridDims w.toNat h.toNat mz4 ∧ Conn mz4 ⟨0, h - 1⟩ ⟨w - 1, 0⟩ := by
    cases b with
    | true => exact ⟨mz3, g1, rfl, hd3, hbconn rfl⟩
    | false =>
      obtain ⟨mz4, g4, hfb, hd4, hle4, hconn4⟩ :=
        carveFallbackPath_spec g1 hd3 hbs hbd
      exact ⟨mz4, g4, hfb, hd4, hconn4⟩
  obtain ⟨mz4, g4, hfixeq, hd4, hconn4⟩ := hfix
  obtain ⟨mz5, g5, hextra, hd5, hle5⟩ := addExtraOpenings_spec g4 hd4 hw hh
  refine ⟨mz5, g5, ?_, hd5, conn_mono hle5 hconn4⟩
  unfold generateMazePaths
  dsimp only
  rw [if_pos (show (0 : Int) % 2 = 0 by decide),
    if_neg (show ¬((h - 1) % 2 = 0) by omega),
    show (0 : Int) + 1 = 1 by norm_num, hcarve]
  dsimp only [Bind.bind, Except.bind]
  rw [hset2]
  dsimp only [Bind.bind, Except.bind]
  rw [hset3]
  dsimp only [Bind.bind, Except.bind]
  rw [hbfs]
  dsimp only [Bind.bind, Except.bind]
  cases b with
  | true =>
    rw [if_pos rfl] at hfixeq ⊢
    simp only [pure, Except.pure, Except.ok.injEq, Prod.mk.injEq] at hfixeq
    obtain ⟨h1, h2⟩ := hfixeq
    subst h1
    subst h2
    dsimp only [pure, Except.pure]
    exact hextra
  | false =>
    rw [if_neg (by simp)] at hfixeq ⊢
    rw [hfixeq]
    dsimp only
    exact hextra

/-! ## Tile grid basics -/

lemma getD_map_of_lt {α β : Type} (f : α → β) (l : List α) {i : Nat}
    (hi : i < l.length) (d : β) (d' : α) :
    (l.map f).getD i d = f (l.getD i d') := by
  rw [List.getD_eq_getElem _ _ (by simpa using hi), List.getD_eq_getElem _ _ hi,
    List.getElem_map]

lemma mkTiles_length (w h : Int) : (mkTiles w h).length = h.toNat := by
  unfold mkTiles
  rw [List.length_map, List.length_range]

lemma gridDims_mkTiles (w h : Int) : gridDims w.toNat h.toNat (mkTiles w h) := by
  refine ⟨mkTiles_length w h, fun row hrow => ?_⟩
  simp only [mkTiles, List.mem_map] at hrow
  obtain ⟨y, -, rfl⟩ := hrow
  rw [List.length_map, List.length_range]

lemma applyMaze_length (T : TileGrid) (mz : Maze) :
    (applyMaze T mz).length = T.length := by
  unfold applyMaze
  rw [List.length_map, List.enum_length]

lemma mem_of_mem_enum {α : Type} {l : List α} {p : Nat × α} (h : p ∈ l.enum) :
    p.2 ∈ l := by
  obtain ⟨i, a⟩ := p
  rw [List.enum_eq_zip_range] at h
  exact (List.of_mem_zip h).2

lemma gridDims_applyMaze {w h : Nat} {T : TileGrid} {mz : Maze}
    (hd : gridDims w h T) : gridDims w h (applyMaze T mz) := by
  refine ⟨by rw [applyMaze_length]; exact hd.1, fun row hrow => ?_⟩
  simp only [applyMaze, List.mem_map] at hrow
  obtain ⟨⟨y, r⟩, hmem, rfl⟩ := hrow
  have hr : r ∈ T := mem_of_mem_enum hmem
  rw [List.length_map, List.enum_length]
  exact hd.2 r hr

lemma applyMaze_getD {T : TileGrid} {mz : Maze} {x y : Nat}
    (hy : y < T.length) (hx : x < (T.getD y []).length) :
    ((applyMaze T mz).getD y []).getD x dummyTile =
      (if getCell mz (x : Int) (y : Int) then
        { (T.getD y []).getD x dummyTile with
            type := TileType.empty, isAccessible := true }
      else (T.getD y []).getD x dummyTile) := by
  unfold applyMaze
  rw [getD_map_of_lt _ _ (by simpa using hy) _ (y, [])]
  have henum : T.enum.getD y (y, []) = (y, T.getD y []) := by
    rw [List.getD_eq_getElem _ _ (by simpa using hy),
      List.getD_eq_getElem _ _ hy, List.getElem_enum]
  rw [henum]
  rw [getD_map_of_lt _ _ (by simpa using hx) _ (x, dummyTile)]
  have henum2 : (T.getD y []).enum.getD x (x, dummyTile) =
      (x, (T.getD y []).getD x dummyTile) := by
    rw [List.getD_eq_getElem _ _ (by simpa using hx),
      List.getD_eq_getElem _ _ hx, List.getElem_enum]
  rw [henum2]

lemma mkTiles_getD {w h : Int} {x y : Nat} (hx : x < w.toNat)
    (hy : y < h.toNat) :
    ((mkTiles w h).getD y []).getD x dummyTile =
      ⟨⟨(x : Int), (y : Int)⟩, .blocked, false, false, none⟩ := by
  unfold mkTiles
  rw [getD_map_of_lt _ _ (by simpa using hy) _ 0]
  have hry : (List.range h.toNat).getD y 0 = y := by
    rw [List.getD_eq_getElem _ _ (by simpa using hy), List.getElem_range]
  rw [hry]
  rw [getD_map_of_lt _ _ (by simpa using hx) _ 0]
  have hrx : (List.range w.toNat).getD x 0 = x := by
    rw [List.getD_eq_getElem _ _ (by simpa using hx), List.getElem_range]
  rw [hrx]

lemma applyMaze_mkTiles_at {w h : Int} {mz : Maze} {x y : Nat}
    (hx : x < w.toNat) (hy : y < h.toNat) :
    ((applyMaze (mkTiles w h) mz).getD y []).getD x dummyTile =
      (if getCell mz (x : Int) (y : Int) then
        ⟨⟨(x : Int), (y : Int)⟩, TileType.empty, false, true, none⟩
      else ⟨⟨(x : Int), (y : Int)⟩, TileType.blocked, false, false, none⟩) := by
  have h1 : y < (mkTiles w h).length := by rw [mkTiles_length]; exact hy
  have h2 : x < ((mkTiles w h).getD y []).length := by
    rw [row_len (gridDims_mkTiles w h) hy]
    exact hx
  rw [applyMaze_getD h1 h2, mkTiles_getD hx hy]

lemma getCell_accessMap {T : TileGrid} {w h : Nat} (hd : gridDims w h T)
    {x y : Int} (hb : inBounds w h x y) :
    getCell (accessMap T) x y =
      ((T.getD y.toNat []).getD x.toNat dummyTile).isAccessible := by
  obtain ⟨hx0, hxw, hy0, hyh⟩ := hb
  rw [getCell_of_nonneg hx0 hy0]
  unfold accessMap
  rw [getD_map_of_lt _ _ (by rw [hd.1]; exact hyh) _ []]
  rw [getD_map_of_lt _ _ (by rw [row_len hd hyh]; exact hxw) _ dummyTile]

lemma gridDims_accessMap {T : TileGrid} {w h : Nat} (hd : gridDims w h T) :
    gridDims w h (accessMap T) := by
  refine ⟨by unfold accessMap; rw [List.length_map]; exact hd.1,
    fun row hrow => ?_⟩
  simp only [accessMap, List.mem_map] at hrow
  obtain ⟨r, hr, rfl⟩ := hrow
  rw [List.length_map]
  exact hd.2 r hr

lemma getCell_oob {w h : Nat} {mz : Maze} (hd : gridDims w h mz) {x y : Int}
    (hb : ¬inBounds w h x y) : getCell mz x y = false := by
  by_cases hneg : 0 ≤ x ∧ 0 ≤ y
  · rw [getCell_of_nonneg hneg.1 hneg.2]
    by_cases hy : y.toNat < h
    · have hx : ¬x.toNat < w := by
        unfold inBounds at hb
        omega
      rw [List.getD_eq_default _ _ (by rw [row_len hd hy]; omega)]
    · rw [List.getD_eq_default mz _ (by rw [hd.1]; omega)]
      rfl
  · exact getCell_neg hneg

lemma getCell_accessMap_oob {T : TileGrid} {w h : Nat} (hd : gridDims w h T)
    {x y : Int} (hb : ¬inBounds w h x y) :
    getCell (accessMap T) x y = false :=
  getCell_oob (gridDims_accessMap hd) hb

lemma maze_eq_of_pointwise {w h : Nat} {m1 m2 : Maze} (h1 : gridDims w h m1)
    (h2 : gridDims w h m2) (hpt : ∀ x y : Int, getCell m1 x y = getCell m2 x y) :
    m1 = m2 := by
  apply List.ext_getElem (by rw [h1.1, h2.1])
  intro y hy1 hy2
  apply List.ext_getElem
  · rw [h1.2 _ (List.getElem_mem hy1), h2.2 _ (List.getElem_mem hy2)]
  intro x hx1 hx2
  have hpt' := hpt (x : Int) (y : Int)
  rw [getCell_of_nonneg (by positivity) (by positivity),
    getCell_of_nonneg (by positivity) (by positivity)] at hpt'
  simp only [Int.toNat_natCast] at hpt'
  have o1 : m1.getD y [] = m1[y] := List.getD_eq_getElem m1 [] hy1
  have o2 : m2.getD y [] = m2[y] := List.getD_eq_getElem m2 [] hy2
  have i1 : (m1[y]).getD x false = m1[y][x] := List.getD_eq_getElem _ false hx1
  have i2 : (m2[y]).getD x false = m2[y][x] := List.getD_eq_getElem _ false hx2
  calc m1[y][x] = (m1[y]).getD x false := i1.symm
    _ = (m1.getD y []).getD x false := by rw [o1]
    _ = (m2.getD y []).getD x false := hpt'
    _ = (m2[y]).getD x false := by rw [o2]
    _ = m2[y][x] := i2

/-! ## Tile updates -/

lemma countP_set {α : Type} (l : List α) (i : Nat) (a : α) (q : α → Bool)
    (d : α) (h : i < l.length) :
    (l.set i a).countP q + (if q (l.getD i d) then 1 else 0) =
      l.countP q + (if q a then 1 else 0) := by
  induction l generalizing i with
  | nil => simp at h
  | cons x xs ih =>
    cases i with
    | zero =>
      simp only [List.set, List.getD_cons_zero, List.countP_cons]
      omega
    | succ i =>
      simp only [List.set, List.getD_cons_succ, List.countP_cons]
      have := ih i (by simpa using h)
      omega

lemma sum_map_set {α : Type} (G : List (List α)) (y : Nat) (r' : List α)
    (f : List α → Nat) (h : y < G.length) :
    ((G.set y r').map f).sum + f (G.getD y []) = (G.map f).sum + f r' := by
  induction G generalizing y with
  | nil => simp at h
  | cons g gs ih =>
    cases y with
    | zero =>
      simp only [List.set, List.map_cons, List.sum_cons, List.getD_cons_zero]
      omega
    | succ y =>
      simp only [List.set, List.map_cons, List.sum_cons, List.getD_cons_succ]
      have := ih y (by simpa using h)
      omega

lemma updateTile_spec {w h : Nat} {T : TileGrid} {p : Pos}
    (hd : gridDims w h T) (hb : inBounds w h p.x p.y) (f : Tile → Tile) :
    ∃ T', updateTile T p f = .ok T' ∧
      T' = T.set p.y.toNat ((T.getD p.y.toNat []).set p.x.toNat
        (f ((T.getD p.y.toNat []).getD p.x.toNat dummyTile))) ∧
      gridDims w h T' ∧
      (T'.getD p.y.toNat []).getD p.x.toNat dummyTile =
        f ((T.getD p.y.toNat []).getD p.x.toNat dummyTile) ∧
      (∀ a b : Nat, ¬(a = p.x.toNat ∧ b = p.y.toNat) →
        (T'.getD b []).getD a dummyTile = (T.getD b []).getD a dummyTile) ∧
      (∀ row' ∈ T', ∀ t ∈ row', (∃ row ∈ T, t ∈ row) ∨
        t = f ((T.getD p.y.toNat []).getD p.x.toNat dummyTile)) := by
  obtain ⟨hx0, hxw, hy0, hyh⟩ := hb
  have hylen : p.y.toNat < T.length := by rw [hd.1]; omega
  have hrowlen : (T.getD p.y.toNat []).length = w := row_len hd (by omega)
  have hstep : updateTile T p f =
      .ok (T.set p.y.toNat ((T.getD p.y.toNat []).set p.x.toNat
        (f ((T.getD p.y.toNat []).getD p.x.toNat dummyTile)))) := by
    unfold updateTile
    rw [if_pos ⟨hy0, hylen⟩, if_pos ⟨hx0, by omega⟩]
  refine ⟨_, hstep, rfl, ⟨by rw [List.length_set]; exact hd.1, ?_⟩, ?_, ?_, ?_⟩
  · intro row hrow
    rcases List.mem_or_eq_of_mem_set hrow with hmem | heq
    · exact hd.2 row hmem
    · rw [heq, List.length_set]
      exact hrowlen
  · rw [getD_set_self _ _ _ _ hylen, getD_set_self _ _ _ _ (by omega)]
  · intro a b hne
    by_cases hby : b = p.y.toNat
    · subst hby
      have hax : p.x.toNat ≠ a := fun hc => hne ⟨hc.symm, rfl⟩
      rw [getD_set_self _ _ _ _ hylen, getD_set_ne _ _ _ hax]
    · rw [getD_set_ne _ _ _ (Ne.symm hby)]
  · intro row' hrow' t ht
    rcases List.mem_or_eq_of_mem_set hrow' with hmem | heq
    · exact Or.inl ⟨row', hmem, ht⟩
    · subst heq
      rcases List.mem_or_eq_of_mem_set ht with hmem | heq2
      · refine Or.inl ⟨T.getD p.y.toNat [], ?_, hmem⟩
        rw [List.getD_eq_getElem _ _ hylen]
        exact List.getElem_mem hylen
      · exact Or.inr heq2

/-! ## Open non-critical positions -/

lemma accessiblePositions_mem {mz : Maze} {w h : Nat} {s b : Pos} :
    ∀ p ∈ accessiblePositions mz w h s b,
      inBounds w h p.x p.y ∧ getCell mz p.x p.y = true ∧
        ¬(p.x = s.x ∧ p.y = s.y) ∧ ¬(p.x = b.x ∧ p.y = b.y) := by
  intro p hp
  simp only [accessiblePositions, List.mem_flatMap, List.mem_filterMap,
    List.mem_range] at hp
  obtain ⟨y, hy, x, hx, hcond⟩ := hp
  split at hcond
  · rename_i hc
    obtain ⟨hopen, hs, hb⟩ := hc
    cases hcond
    refine ⟨⟨by positivity, by simpa using hx, by positivity,
      by simpa using hy⟩, hopen, hs, hb⟩
  · exact absurd hcond (by simp)

lemma accessiblePositions_nodup (mz : Maze) (w h : Nat) (s b : Pos) :
    (accessiblePositions mz w h s b).Nodup := by
  unfold accessiblePositions
  rw [List.nodup_flatMap]
  constructor
  · intro y hy
    apply List.Nodup.filterMap
    · intro a a' q hq hq'
      dsimp only at hq hq'
      split at hq
      · split at hq'
        · have h1 : (⟨(a : Int), (y : Int)⟩ : Pos) = q := by
            simpa [Option.mem_def] using hq
          have h2 : (⟨(a' : Int), (y : Int)⟩ : Pos) = q := by
            simpa [Option.mem_def] using hq'
          rw [← h2] at h1
          have hxx : (a : Int) = (a' : Int) := congrArg Pos.x h1
          exact_mod_cast hxx
        · exact absurd hq' (by simp)
      · exact absurd hq (by simp)
    · exact List.nodup_range w
  · rw [List.pairwise_iff_getElem]
    intro i j hi hj hij
    intro q hq hq'
    simp only [List.mem_filterMap] at hq hq'
    obtain ⟨x, hx, hcond⟩ := hq
    obtain ⟨x', hx', hcond'⟩ := hq'
    have hy : q.y = (((List.range h)[i] : Nat) : Int) := by
      split at hcond
      · cases hcond
        rfl
      · exact absurd hcond (by simp)
    have hy' : q.y = (((List.range h)[j] : Nat) : Int) := by
      split at hcond'
      · cases hcond'
        rfl
      · exact absurd hcond' (by simp)
    have hne : ((List.range h)[i] : Nat) ≠ (List.range h)[j] := by
      rw [List.getElem_range, List.getElem_range]
      omega
    rw [hy] at hy'
    exact hne (by exact_mod_cast hy')

/-! ## Challenge placement -/

lemma generateBossChallenge_good {d : String} {g : Rng} {ch : MathChallenge}
    {g' : Rng} (h : generateBossChallenge d g = .ok (ch, g')) :
    GoodChallenge ch := by
  unfold generateBossChallenge at h
  dsimp only at h
  cases hreg : generateRegularChallenge (getNextDifficulty d) g with
  | error e => rw [hreg] at h; simp at h
  | ok res =>
    obtain ⟨reg, g2⟩ := res
    rw [hreg] at h
    dsimp only at h
    simp only [Except.ok.injEq, Prod.mk.injEq] at h
    obtain ⟨h1, -⟩ := h
    subst h1
    have hgood := (generateRegularChallenge_fields hreg).2.2
    exact ⟨hgood.1, hgood.2⟩

lemma placeLoop_spec (d : String)
    (hd5 : d = "beginner" ∨ d = "easy" ∨ d = "medium" ∨ d = "hard" ∨
      d = "expert") :
    ∀ (ps : List Pos) (n : Nat) (T : TileGrid) (g : Rng) (w h : Nat),
      gridDims w h T →
      (∀ p ∈ ps, inBounds w h p.x p.y) →
      ps.Nodup →
      (∀ p ∈ ps, ((T.getD p.y.toNat []).getD p.x.toNat dummyTile).type ≠
        TileType.challenge) →
      ∃ T' g', placeLoop d ps n T g = .ok (T', g') ∧ gridDims w h T' ∧
        (∀ a b : Int, getCell (accessMap T') a b = getCell (accessMap T) a b) ∧
        (∀ row' ∈ T', ∀ t ∈ row', (∃ row ∈ T, t ∈ row) ∨
          ∃ ch, t.challenge = some ch ∧ GoodChallenge ch) ∧
        (T'.map fun row =>
            row.countP fun t => decide (t.type = TileType.challenge)).sum =
          (T.map fun row =>
            row.countP fun t => decide (t.type = TileType.challenge)).sum +
            min n ps.length := by
  intro ps
  induction ps with
  | nil =>
    intro n T g w h hd _ _ _
    refine ⟨T, g, ?_, hd, fun _ _ => rfl,
      fun row hrow t ht => Or.inl ⟨row, hrow, ht⟩, by simp⟩
    cases n <;> rfl
  | cons p rest ihp =>
    intro n T g w h hd hbnd hnd htype
    cases n with
    | zero =>
      exact ⟨T, g, rfl, hd, fun _ _ => rfl,
        fun row hrow t ht => Or.inl ⟨row, hrow, ht⟩, by simp⟩
    | succ n =>
      obtain ⟨ch, g2, hch⟩ := generateRegularChallenge_ok d hd5 g
      have hchgood := (generateRegularChallenge_fields hch).2.2
      have hbp : inBounds w h p.x p.y := hbnd p (List.mem_cons_self _ _)
      obtain ⟨T2, hupd, hT2eq, hd2, hat, hunch, hmem2⟩ :=
        updateTile_spec hd hbp
          (fun t => { t with type := TileType.challenge, challenge := some ch })
      have hbrest : ∀ q ∈ rest, inBounds w h q.x q.y :=
        fun q hq => hbnd q (List.mem_cons_of_mem _ hq)
      have hndrest : rest.Nodup := hnd.of_cons
      have hpnotin : p ∉ rest := (List.nodup_cons.mp hnd).1
      have htyperest : ∀ q ∈ rest,
          ((T2.getD q.y.toNat []).getD q.x.toNat dummyTile).type ≠
            TileType.challenge := by
        intro q hq
        have hqb := hbrest q hq
        have hqe : ¬(q.x.toNat = p.x.toNat ∧ q.y.toNat = p.y.toNat) := by
          intro hc
          apply hpnotin
          have : q = p := by
            obtain ⟨hqx0, -, hqy0, -⟩ := hqb
            obtain ⟨hpx0, -, hpy0, -⟩ := hbp
            cases q
            cases p
            simp only [Pos.mk.injEq] at hqx0 hqy0 hpx0 hpy0 hc ⊢
            constructor <;> omega
          rwa [← this]
        rw [hunch _ _ hqe]
        exact htype q (List.mem_cons_of_mem _ hq)
      obtain ⟨T', g', hrec, hd', hacc, hgood, hcount⟩ :=
        ihp n T2 g2 w h hd2 hbrest hndrest htyperest
      refine ⟨T', g', ?_, hd', ?_, ?_, ?_⟩
      · show placeLoop d (p :: rest) (n + 1) T g = _
        unfold placeLoop
        rw [hch]
        dsimp only [Bind.bind, Except.bind]
        rw [hupd]
        dsimp only
        exact hrec
      · intro a b
        rw [hacc a b]
        by_cases hab : inBounds w h a b
        · rw [getCell_accessMap hd2 hab, getCell_accessMap hd hab]
          by_cases he : a.toNat = p.x.toNat ∧ b.toNat = p.y.toNat
          · have ha : a = p.x := by
              obtain ⟨hx0, -, -, -⟩ := hbp
              obtain ⟨ha0, -, -, -⟩ := hab
              omega
            have hb : b = p.y := by
              obtain ⟨-, -, hy0, -⟩ := hbp
              obtain ⟨-, -, hb0, -⟩ := hab
              omega
            subst ha hb
            rw [hat]
          · rw [hunch _ _ he]
        · rw [getCell_accessMap_oob hd2 hab, getCell_accessMap_oob hd hab]
      · intro row' hrow' t ht
        rcases hgood row' hrow' t ht with h2 | h2
        · obtain ⟨row2, hrow2, ht2⟩ := h2
          rcases hmem2 row2 hrow2 t ht2 with h3 | h3
          · exact Or.inl h3
          · exact Or.inr ⟨ch, by rw [h3], hchgood⟩
        · exact Or.inr h2
      · rw [hcount]
        have hylen : p.y.toNat < T.length := by
          rw [hd.1]
          exact hbp.2.2.2
        have hxlen : p.x.toNat < (T.getD p.y.toNat []).length := by
          rw [row_len hd hbp.2.2.2]
          exact hbp.2.1
        have hsum := sum_map_set T p.y.toNat
          ((T.getD p.y.toNat []).set p.x.toNat
            ({ (T.getD p.y.toNat []).getD p.x.toNat dummyTile with
                type := TileType.challenge, challenge := some ch }))
          (fun row => row.countP fun t => decide (t.type = TileType.challenge))
          hylen
        have hcp := countP_set (T.getD p.y.toNat []) p.x.toNat
          ({ (T.getD p.y.toNat []).getD p.x.toNat dummyTile with
              type := TileType.challenge, challenge := some ch })
          (fun t => decide (t.type = TileType.challenge)) dummyTile hxlen
        have holdfalse :
            (decide (((T.getD p.y.toNat []).getD p.x.toNat dummyTile).type =
              TileType.challenge)) = false := by
          simp only [decide_eq_false_iff_not]
          exact htype p (List.mem_cons_self _ _)
        rw [hT2eq]
        dsimp only at hsum hcp ⊢
        rw [holdfalse] at hcp
        simp only [Bool.false_eq_true, if_false, decide_True, if_true] at hcp
        simp only [List.length_cons]
        omega

/-! ## Assembling the full map -/

lemma generateBossChallenge_ok (d : String)
    (hd5 : d = "beginner" ∨ d = "easy" ∨ d = "medium" ∨ d = "hard" ∨
      d = "expert") (g : Rng) :
    ∃ ch g', generateBossChallenge d g = .ok (ch, g') := by
  rcases hd5 with rfl | rfl | rfl | rfl | rfl
  · obtain ⟨ch, g', hok, -⟩ := generateBossChallenge_spec "beginner" "easy" rfl
      (Or.inr (Or.inl rfl)) g
    exact ⟨ch, g', hok⟩
  · obtain ⟨ch, g', hok, -⟩ := generateBossChallenge_spec "easy" "medium" rfl
      (Or.inr (Or.inr (Or.inl rfl))) g
    exact ⟨ch, g', hok⟩
  · obtain ⟨ch, g', hok, -⟩ := generateBossChallenge_spec "medium" "hard" rfl
      (Or.inr (Or.inr (Or.inr (Or.inl rfl)))) g
    exact ⟨ch, g', hok⟩
  · obtain ⟨ch, g', hok, -⟩ := generateBossChallenge_spec "hard" "expert" rfl
      (Or.inr (Or.inr (Or.inr (Or.inr rfl)))) g
    exact ⟨ch, g', hok⟩
  · obtain ⟨ch, g', hok, -⟩ := generateBossChallenge_spec "expert" "expert" rfl
      (Or.inr (Or.inr (Or.inr (Or.inr rfl)))) g
    exact ⟨ch, g', hok⟩

lemma mkTiles_mem (w h : Int) :
    ∀ row ∈ mkTiles w h, ∀ t ∈ row,
      t.type = TileType.blocked ∧ t.challenge = none := by
  intro row hrow t ht
  simp only [mkTiles, List.mem_map] at hrow
  obtain ⟨y, -, rfl⟩ := hrow
  simp only [List.mem_map] at ht
  obtain ⟨x, -, rfl⟩ := ht
  exact ⟨rfl, rfl⟩

lemma applyMaze_mem {T : TileGrid} {mz : Maze} :
    ∀ row' ∈ applyMaze T mz, ∀ t ∈ row', ∃ row ∈ T, ∃ t' ∈ row,
      t.challenge = t'.challenge ∧
        (t.type = TileType.empty ∨ t.type = t'.type) := by
  intro row' hrow' t ht
  simp only [applyMaze, List.mem_map] at hrow'
  obtain ⟨⟨y, r⟩, hmem, rfl⟩ := hrow'
  have hr : r ∈ T := mem_of_mem_enum hmem
  simp only [List.mem_map] at ht
  obtain ⟨⟨x, t'⟩, hmem2, rfl⟩ := ht
  have ht' : t' ∈ r := mem_of_mem_enum hmem2
  refine ⟨r, hr, t', ht', ?_⟩
  dsimp only
  split
  · exact ⟨rfl, Or.inl rfl⟩
  · exact ⟨rfl, Or.inr rfl⟩

lemma applyMaze_mkTiles_mem (w h : Int) (mz : Maze) :
    ∀ row ∈ applyMaze (mkTiles w h) mz, ∀ t ∈ row,
      t.challenge = none ∧ t.type ≠ TileType.challenge := by
  intro row hrow t ht
  obtain ⟨r, hr, t', ht', hch, hty⟩ := applyMaze_mem row hrow t ht
  obtain ⟨hty', hch'⟩ := mkTiles_mem w h r hr t' ht'
  refine ⟨by rw [hch, hch'], ?_⟩
  rcases hty with h1 | h1
  · rw [h1]
    intro hc
    exact TileType.noConfusion hc
  · rw [h1, hty']
    intro hc
    exact TileType.noConfusion hc

lemma generateTileMap_spec (mapId : String) (w h : Int) (d : String) (g : Rng)
    (hw : 2 ≤ w) (hh : 2 ≤ h) (hhe : h % 2 = 0)
    (hd5 : d = "beginner" ∨ d = "easy" ∨ d = "medium" ∨ d = "hard" ∨
      d = "expert") :
    ∃ m g', generateTileMap mapId w h d g = .ok (m, g') ∧
      m.id = mapId ∧ m.width = w ∧ m.height = h ∧ m.difficulty = d ∧
      m.startPosition = ⟨0, h - 1⟩ ∧ m.bossPosition = ⟨w - 1, 0⟩ ∧
      m.mobs = [] ∧ m.isCompleted = false ∧
      gridDims w.toNat h.toNat m.tiles ∧
      Conn (accessMap m.tiles) m.startPosition m.bossPosition ∧
      GoodMap m ∧
      countChallengeTiles m =
        min (3 * openCount m / 10) (nonCriticalOpen m) := by
  obtain ⟨mz, g1, hmaze, hdmz, hconn⟩ := generateMazePaths_spec w h g hw hh hhe
  set T1 := applyMaze (mkTiles w h) mz with hT1def
  have hd1 : gridDims w.toNat h.toNat T1 :=
    gridDims_applyMaze (gridDims_mkTiles w h)
  have hacc1 : ∀ x y : Int, getCell (accessMap T1) x y = getCell mz x y := by
    intro x y
    by_cases hb : inBounds w.toNat h.toNat x y
    · obtain ⟨hx0, hxw, hy0, hyh⟩ := hb
      rw [getCell_accessMap hd1 ⟨hx0, hxw, hy0, hyh⟩]
      have hxx : ((x.toNat : Nat) : Int) = x := Int.toNat_of_nonneg hx0
      have hyy : ((y.toNat : Nat) : Int) = y := Int.toNat_of_nonneg hy0
      have hat1 := @applyMaze_mkTiles_at w h mz x.toNat y.toNat hxw hyh
      rw [← hT1def] at hat1
      rw [hat1, hxx, hyy]
      cases hcell : getCell mz x y <;> simp [hcell]
    · rw [getCell_accessMap_oob hd1 hb, getCell_oob hdmz hb]
  obtain ⟨bossCh, g2, hboss⟩ := generateBossChallenge_ok d hd5 g1
  have hbossgood : GoodChallenge bossCh := generateBossChallenge_good hboss
  have hbbnd : inBounds w.toNat h.toNat (Pos.mk (w - 1) 0).x
      (Pos.mk (w - 1) 0).y := by
    unfold inBounds
    dsimp only
    omega
  obtain ⟨T2, hupd, hT2eq, hd2, hat, hunch, hmem2⟩ := updateTile_spec hd1 hbbnd
    (fun t =>
      { t with
          type := TileType.boss
          challenge := some bossCh
          isAccessible := true })
  dsimp only at hat hunch
  have hbopen : getCell mz (w - 1) 0 = true := conn_open_right hconn
  have hacc2 : ∀ x y : Int, getCell (accessMap T2) x y = getCell mz x y := by
    intro x y
    by_cases hb : inBounds w.toNat h.toNat x y
    · rw [getCell_accessMap hd2 hb]
      by_cases he : x.toNat = (w - 1).toNat ∧ y.toNat = (0 : Int).toNat
      · have hx : x = w - 1 := by
          obtain ⟨hx0, -, -, -⟩ := hb
          omega
        have hy : y = 0 := by
          obtain ⟨-, -, hy0, -⟩ := hb
          omega
        subst hx hy
        rw [hat]
        exact hbopen.symm
      · rw [hunch _ _ he]
        rw [← getCell_accessMap hd1 hb, hacc1]
    · rw [getCell_accessMap_oob hd2 hb, getCell_oob hdmz hb]
  have ht2info : ∀ row ∈ T2, ∀ t ∈ row, t.type ≠ TileType.challenge ∧
      (t.challenge = none ∨ t.challenge = some bossCh) := by
    intro row hrow t ht
    rcases hmem2 row hrow t ht with ⟨r1, hr1, ht1⟩ | heq
    · obtain ⟨hchn, htyn⟩ := applyMaze_mkTiles_mem w h mz r1 hr1 t ht1
      exact ⟨htyn, Or.inl hchn⟩
    · rw [heq]
      exact ⟨fun hc => TileType.noConfusion hc, Or.inr rfl⟩
  set positions := accessiblePositions mz w.toNat h.toNat ⟨0, h - 1⟩
    ⟨w - 1, 0⟩ with hposdef
  rcases hsh : shuffleJs positions g2 with ⟨shuffled, g3⟩
  have hperm : shuffled.Perm positions := by
    have hp := shuffleJs_perm positions g2
    rw [hsh] at hp
    exact hp
  have hmemsh : ∀ p ∈ shuffled, p ∈ positions := fun p hp => hperm.mem_iff.mp hp
  have hbndsh : ∀ p ∈ shuffled, inBounds w.toNat h.toNat p.x p.y :=
    fun p hp => (accessiblePositions_mem p (hmemsh p hp)).1
  have hndsh : shuffled.Nodup :=
    hperm.nodup_iff.mpr (accessiblePositions_nodup mz w.toNat h.toNat _ _)
  have htypesh : ∀ p ∈ shuffled,
      ((T2.getD p.y.toNat []).getD p.x.toNat dummyTile).type ≠
        TileType.challenge := by
    intro p hp
    have hb := hbndsh p hp
    have hylen : p.y.toNat < T2.length := by
      rw [hd2.1]
      exact hb.2.2.2
    have hxlen : p.x.toNat < (T2.getD p.y.toNat []).length := by
      rw [row_len hd2 hb.2.2.2]
      exact hb.2.1
    have hrowmem : T2.getD p.y.toNat [] ∈ T2 := by
      rw [List.getD_eq_getElem _ _ hylen]
      exact List.getElem_mem hylen
    have htm : (T2.getD p.y.toNat []).getD p.x.toNat dummyTile ∈
        T2.getD p.y.toNat [] := by
      rw [List.getD_eq_getElem _ _ hxlen]
      exact List.getElem_mem hxlen
    exact (ht2info _ hrowmem _ htm).1
  obtain ⟨T', g4, hloop, hd', haccl, hgoodl, hcountl⟩ := placeLoop_spec d hd5
    shuffled (3 * countTrue mz / 10) T2 g3 w.toNat h.toNat hd2 hbndsh hndsh
    htypesh
  have hplace : placeChallengesOnPaths T2 (3 * countTrue mz / 10) d ⟨0, h - 1⟩
      ⟨w - 1, 0⟩ mz g2 = .ok (T', g4) := by
    unfold placeChallengesOnPaths
    dsimp only
    rw [hd2.1, row_len hd2 (show 0 < h.toNat by omega), ← hposdef, hsh]
    dsimp only
    exact hloop
  have hzero : (T2.map fun row =>
      row.countP fun t => decide (t.type = TileType.challenge)).sum = 0 := by
    apply List.sum_eq_zero
    intro n hn
    simp only [List.mem_map] at hn
    obtain ⟨row, hrow, rfl⟩ := hn
    rw [List.countP_eq_zero]
    intro t ht
    simp only [decide_eq_true_eq]
    exact (ht2info row hrow t ht).1
  have haccfinal : accessMap T' = mz :=
    maze_eq_of_pointwise (gridDims_accessMap hd') hdmz
      (fun x y => (haccl x y).trans (hacc2 x y))
  refine ⟨⟨mapId, w, h, T', d, ⟨w - 1, 0⟩, ⟨0, h - 1⟩, [], false⟩, g4, ?_,
    rfl, rfl, rfl, rfl, rfl, rfl, rfl, rfl, hd', ?_, ?_, ?_⟩
  · unfold generateTileMap
    dsimp only
    rw [hmaze]
    dsimp only [Bind.bind, Except.bind]
    rw [hboss]
    dsimp only [Bind.bind, Except.bind]
    rw [← hT1def, hupd]
    dsimp only [Bind.bind, Except.bind]
    rw [hplace]
    dsimp only [Bind.bind, Except.bind, pure, Except.pure]
  · dsimp only
    rw [haccfinal]
    exact hconn
  · intro row hrow t ht ch hch
    dsimp only at hrow
    rcases hgoodl row hrow t ht with ⟨r2, hr2, ht2⟩ | ⟨ch2, hch2, hgood2⟩
    · rcases (ht2info r2 hr2 t ht2).2 with hn | hs
      · rw [hn] at hch
        exact Option.noConfusion hch
      · rw [hs] at hch
        injection hch with h1
        rw [← h1]
        exact hbossgood
    · rw [hch2] at hch
      injection hch with h1
      rw [← h1]
      exact hgood2
  · unfold countChallengeTiles openCount nonCriticalOpen
    dsimp only
    rw [haccfinal, hd'.1, row_len hd' (show 0 < h.toNat by omega),
      ← hposdef, hcountl, hzero, hperm.length_eq]
    omega

/-! ## Challenge goodness of every successful generation -/

lemma updateTile_mem {T T' : TileGrid} {p : Pos} {f : Tile → Tile}
    (h : updateTile T p f = .ok T') :
    ∀ row' ∈ T', ∀ t ∈ row', (∃ row ∈ T, t ∈ row) ∨ ∃ t0, t = f t0 := by
  unfold updateTile at h
  split at h
  · rename_i hy
    dsimp only at h
    split at h
    · simp only [Except.ok.injEq] at h
      subst h
      intro row' hrow' t ht
      rcases List.mem_or_eq_of_mem_set hrow' with hmem | heq
      · exact Or.inl ⟨row', hmem, ht⟩
      · subst heq
        rcases List.mem_or_eq_of_mem_set ht with hmem | heq2
        · refine Or.inl ⟨T.getD p.y.toNat [], ?_, hmem⟩
          rw [List.getD_eq_getElem _ _ hy.2]
          exact List.getElem_mem hy.2
        · exact Or.inr ⟨_, heq2⟩
    · exact Except.noConfusion h
  · exact Except.noConfusion h

lemma placeLoop_good_general (d : String) :
    ∀ (ps : List Pos) (n : Nat) (T T' : TileGrid) (g g' : Rng),
      placeLoop d ps n T g = .ok (T', g') →
      ∀ row' ∈ T', ∀ t ∈ row', (∃ row ∈ T, t ∈ row) ∨
        ∃ ch, t.challenge = some ch ∧ GoodChallenge ch := by
  intro ps
  induction ps with
  | nil =>
    intro n T T' g g' h
    cases n <;>
      (simp only [placeLoop, Except.ok.injEq, Prod.mk.injEq] at h
       obtain ⟨rfl, rfl⟩ := h
       exact fun row hrow t ht => Or.inl ⟨row, hrow, ht⟩)
  | cons p rest ih =>
    intro n T T' g g' h
    cases n with
    | zero =>
      simp only [placeLoop, Except.ok.injEq, Prod.mk.injEq] at h
      obtain ⟨rfl, rfl⟩ := h
      exact fun row hrow t ht => Or.inl ⟨row, hrow, ht⟩
    | succ n =>
      rw [placeLoop] at h
      cases hch : generateRegularChallenge d g with
      | error e =>
        rw [hch] at h
        dsimp only [Bind.bind, Except.bind] at h
        exact Except.noConfusion h
      | ok res =>
        obtain ⟨ch, g2⟩ := res
        rw [hch] at h
        dsimp only [Bind.bind, Except.bind] at h
        cases hupd : updateTile T p
            (fun t =>
              { t with
                  type := TileType.challenge
                  challenge := some ch }) with
        | error e =>
          rw [hupd] at h
          dsimp only at h
          exact Except.noConfusion h
        | ok T2 =>
          rw [hupd] at h
          dsimp only at h
          intro row' hrow' t ht
          rcases ih n T2 T' g2 g' h row' hrow' t ht with ⟨r2, hr2, ht2⟩ | hg
          · rcases updateTile_mem hupd r2 hr2 t ht2 with hm | ⟨t0, rfl⟩
            · exact Or.inl hm
            · exact Or.inr ⟨ch, rfl, (generateRegularChallenge_fields hch).2.2⟩
          · exact Or.inr hg

lemma generateTileMap_good {mapId : String} {w h : Int} {d : String} {g : Rng}
    {m : TileMap} {g' : Rng}
    (hok : generateTileMap mapId w h d g = .ok (m, g')) : GoodMap m := by
  unfold generateTileMap at hok
  dsimp only at hok
  cases hmz : generateMazePaths w h ⟨0, h - 1⟩ ⟨w - 1, 0⟩ g with
  | error e =>
    rw [hmz] at hok
    dsimp only [Bind.bind, Except.bind] at hok
    exact Except.noConfusion hok
  | ok res =>
    obtain ⟨mz, g1⟩ := res
    rw [hmz] at hok
    dsimp only [Bind.bind, Except.bind] at hok
    cases hb : generateBossChallenge d g1 with
    | error e =>
      rw [hb] at hok
      dsimp only at hok
      exact Except.noConfusion hok
    | ok res2 =>
      obtain ⟨bossCh, g2⟩ := res2
      rw [hb] at hok
      dsimp only at hok
      cases hu : updateTile (applyMaze (mkTiles w h) mz) ⟨w - 1, 0⟩
          (fun t =>
            { t with
                type := TileType.boss
                challenge := some bossCh
                isAccessible := true }) with
      | error e =>
        rw [hu] at hok
        dsimp only at hok
        exact Except.noConfusion hok
      | ok T2 =>
        rw [hu] at hok
        dsimp only at hok
        cases hp : placeChallengesOnPaths T2 (3 * countTrue mz / 10) d
            ⟨0, h - 1⟩ ⟨w - 1, 0⟩ mz g2 with
        | error e =>
          rw [hp] at hok
          dsimp only at hok
          exact Except.noConfusion hok
        | ok res3 =>
          obtain ⟨T', g3⟩ := res3
          rw [hp] at hok
          dsimp only [pure, Except.pure] at hok
          simp only [Except.ok.injEq, Prod.mk.injEq] at hok
          obtain ⟨h1, -⟩ := hok
          subst h1
          unfold placeChallengesOnPaths at hp
          dsimp only at hp
          rcases hsh : shuffleJs (accessiblePositions mz
              ((T2.getD 0 []).length) T2.length ⟨0, h - 1⟩ ⟨w - 1, 0⟩) g2
            with ⟨shuffled, g4⟩
          rw [hsh] at hp
          dsimp only at hp
          intro row hrow t ht ch hch
          rcases placeLoop_good_general d shuffled _ T2 T' g4 g3 hp row hrow
              t ht with ⟨r2, hr2, ht2⟩ | ⟨ch2, hch2, hgood2⟩
          · rcases updateTile_mem hu r2 hr2 t ht2 with ⟨r1, hr1, ht1⟩ |
                ⟨t0, rfl⟩
            · have hnone := (applyMaze_mkTiles_mem w h mz r1 hr1 t ht1).1
              rw [hnone] at hch
              exact Option.noConfusion hch
            · have hch' : some bossCh = some ch := hch
              injection hch' with h2
              rw [← h2]
              exact generateBossChallenge_good hb
          · rw [hch2] at hch
            injection hch with h2
            rw [← h2]
            exact hgood2

/-! ## Difficulty fallback and the crashing tiers -/

lemma generateBossChallenge_low_error {d : String}
    (hnd : getNextDifficulty d = "infant" ∨ getNextDifficulty d = "toddler")
    (g : Rng) : generateBossChallenge d g = .error .typeError := by
  unfold generateBossChallenge
  dsimp only
  rw [generateRegularChallenge_infant_toddler (getNextDifficulty d) hnd g]

lemma getNextDifficulty_unknown {s : String} (h : s ∉ difficultyProgression) :
    getNextDifficulty s = "infant" := by
  have hnone : difficultyProgression.indexOf? s = none := by
    rw [List.indexOf?_eq_none_iff]
    intro x hx
    simp only [beq_iff_eq]
    intro hc
    exact h (hc ▸ hx)
  unfold getNextDifficulty
  dsimp only
  unfold jsIndexOf
  rw [hnone]
  rfl

lemma generateTileMap_boss_error {mapId : String} {w h : Int} {d : String}
    (g : Rng) (hw : 2 ≤ w) (hh : 2 ≤ h) (hhe : h % 2 = 0)
    (hberr : ∀ g1, generateBossChallenge d g1 = .error .typeError) :
    generateTileMap mapId w h d g = .error .typeError := by
  obtain ⟨mz, g1, hmaze, -, -⟩ := generateMazePaths_spec w h g hw hh hhe
  unfold generateTileMap
  dsimp only
  rw [hmaze]
  dsimp only [Bind.bind, Except.bind]
  rw [hberr g1]

/-- C1 counterexample: at width 4, height 3 (both at least 2) and the valid
difficulty `"beginner"`, `generateTileMap` throws a `TypeError` instead of
returning a connected map — the carver moves its start row out of range for
odd heights. -/
theorem c1_counterexample :
    generateTileMap "m1" 4 3 "beginner" g0 = .error .typeError := by rfl

/-- C1 (amended): for every width at least 2 and every even height at least
2, at each of the five difficulties with operand ranges, `generateTileMap`
returns a map whose `startPosition = (0, height-1)` and
`bossPosition = (width-1, 0)` are connected through a path of 4-adjacent
accessible tiles. -/
theorem c1_connectivity :
    ∀ (mapId : String) (w h : Int) (d : String) (g : Rng), 2 ≤ w → 2 ≤ h →
      h % 2 = 0 →
      (d = "beginner" ∨ d = "easy" ∨ d = "medium" ∨ d = "hard" ∨
        d = "expert") →
      ∃ m g', generateTileMap mapId w h d g = .ok (m, g') ∧
        m.startPosition = ⟨0, h - 1⟩ ∧ m.bossPosition = ⟨w - 1, 0⟩ ∧
        Conn (accessMap m.tiles) m.startPosition m.bossPosition := by
  intro mapId w h d g hw hh hhe hd5
  obtain ⟨m, g', hok, -, -, -, -, hs, hb, -, -, -, hconn, -, -⟩ :=
    generateTileMap_spec mapId w h d g hw hh hhe hd5
  exact ⟨m, g', hok, hs, hb, hconn⟩

/-- C1 witness at a concrete connected instance (4 by 4, beginner). -/
theorem c1_witness :
    ∃ m g', generateTileMap "m1" 4 4 "beginner" g0 = .ok (m, g') ∧
      m.startPosition = ⟨0, 4 - 1⟩ ∧ m.bossPosition = ⟨4 - 1, 0⟩ ∧
      Conn (accessMap m.tiles) m.startPosition m.bossPosition :=
  c1_connectivity "m1" 4 4 "beginner" g0 (by norm_num) (by norm_num)
    (by norm_num) (Or.inl rfl)

/-- C2: the minimal-map scenario crashes instead of succeeding — for every
random stream, `generateTileMap("m1", 4, 4, "infant")` throws a `TypeError`:
the boss generator generates at the next tier `"toddler"`, whose
operand-range entry is missing. -/
theorem c2_infant_scenario_throws :
    ∀ g : Rng, generateTileMap "m1" 4 4 "infant" g = .error .typeError :=
  fun g => generateTileMap_boss_error g (by norm_num) (by norm_num)
    (by norm_num) (fun g1 => @generateBossChallenge_low_error "infant" (Or.inr rfl) g1)

/-- C3: the carver is not bounds-safe at degenerate dimensions — on a 1-by-1
grid `generateMazePaths` adjusts its start coordinates to odd values, indexes
the out-of-range row 1, and throws a `TypeError` instead of terminating
cleanly. -/
theorem c3_degenerate_dimensions_crash :
    generateMazePaths 1 1 ⟨0, 0⟩ ⟨0, 0⟩ g0 = .error .typeError := by rfl

/-- C4: every challenge produced during map generation — by the regular
generator, by the boss generator, or attached to any tile of any
successfully generated map — stores exactly
`correctAnswer = calculateAnswer(operation, operands)`, and division
challenges have a nonzero divisor dividing the dividend exactly. -/
theorem c4_challenges_exact :
    (∀ (d : String) (g : Rng) (ch : MathChallenge) (g' : Rng),
      generateRegularChallenge d g = .ok (ch, g') → GoodChallenge ch) ∧
    (∀ (d : String) (g : Rng) (ch : MathChallenge) (g' : Rng),
      generateBossChallenge d g = .ok (ch, g') → GoodChallenge ch) ∧
    (∀ (mapId : String) (w h : Int) (d : String) (g : Rng) (m : TileMap)
      (g' : Rng), generateTileMap mapId w h d g = .ok (m, g') → GoodMap m) :=
  ⟨fun _ _ _ _ h => (generateRegularChallenge_fields h).2.2,
   fun _ _ _ _ h => generateBossChallenge_good h,
   fun _ _ _ _ _ _ _ h => generateTileMap_good h⟩

/-- C4 witness: the challenges of a concrete generated map are all exact. -/
theorem c4_witness :
    GoodMap (okMapOf (generateTileMap "m1" 4 4 "beginner" g0)) := by
  obtain ⟨m, g', hok, -, -, -, -, -, -, -, -, -, -, -, -⟩ :=
    generateTileMap_spec "m1" 4 4 "beginner" g0 (by norm_num) (by norm_num)
      (by norm_num) (Or.inl rfl)
  rw [hok]
  exact c4_challenges_exact.2.2 "m1" 4 4 "beginner" g0 m g' hok

/-- C6 counterexample: on a 6-by-4 map with 13 open cells, the lowest and
highest working tiers place the same number of challenge tiles (3 each),
although the spec's tier-scaled densities 0.15 and 0.35 would demand the
different targets 1 and 4: the code uses one constant density for every
tier. -/
theorem c6_counterexample :
    countChallengeTiles (okMapOf (generateTileMap "m1" 6 4 "beginner" g0)) =
      3 ∧
    countChallengeTiles (okMapOf (generateTileMap "m1" 6 4 "expert" g0)) =
      3 ∧
    openCount (okMapOf (generateTileMap "m1" 6 4 "beginner" g0)) = 13 ∧
    openCount (okMapOf (generateTileMap "m1" 6 4 "expert" g0)) = 13 ∧
    (13 * 15 / 100 : Nat) = 1 ∧ (13 * 35 / 100 : Nat) = 4 :=
  ⟨by rfl, by rfl, by rfl, by rfl, by norm_num, by norm_num⟩

/-- C6 (amended): the challenge-tile count is difficulty-independent — at
every working tier it equals
`min(floor(0.3 * openCellCount), openNonCriticalCellCount)`, with the one
constant density 0.3. -/
theorem c6_constant_density :
    ∀ (mapId : String) (w h : Int) (d : String) (g : Rng), 2 ≤ w → 2 ≤ h →
      h % 2 = 0 →
      (d = "beginner" ∨ d = "easy" ∨ d = "medium" ∨ d = "hard" ∨
        d = "expert") →
      ∃ m g', generateTileMap mapId w h d g = .ok (m, g') ∧
        countChallengeTiles m =
          min (3 * openCount m / 10) (nonCriticalOpen m) := by
  intro mapId w h d g hw hh hhe hd5
  obtain ⟨m, g', hok, -, -, -, -, -, -, -, -, -, -, -, hcount⟩ :=
    generateTileMap_spec mapId w h d g hw hh hhe hd5
  exact ⟨m, g', hok, hcount⟩

/-- C6 witness at a concrete instance (6 by 4, beginner). -/
theorem c6_witness :
    ∃ m g', generateTileMap "m1" 6 4 "beginner" g0 = .ok (m, g') ∧
      countChallengeTiles m =
        min (3 * openCount m / 10) (nonCriticalOpen m) :=
  c6_constant_density "m1" 6 4 "beginner" g0 (by norm_num) (by norm_num)
    (by norm_num) (Or.inl rfl)

/-- C9 counterexample: with the unrecognized difficulty `"bogus"`,
`generateTileMap` throws a `TypeError` instead of falling back to a default
tier. -/
theorem c9_counterexample :
    generateTileMap "m1" 4 4 "bogus" g0 = .error .typeError := by rfl

/-- C9 (amended): `getNextDifficulty` does fall back — every difficulty
string outside the progression maps to the lowest tier `"infant"` — but
`generateTileMap` does not: for every unknown difficulty string and every
random stream it throws a `TypeError`, because the fallback tier's boss
generation hits the missing infant operand range. -/
theorem c9_unknown_difficulty :
    ∀ s : String, s ∉ difficultyProgression →
      getNextDifficulty s = "infant" ∧
      ∀ g : Rng, generateTileMap "m1" 4 4 s g = .error .typeError := by
  intro s hs
  have hnext := getNextDifficulty_unknown hs
  exact ⟨hnext, fun g => generateTileMap_boss_error g (by norm_num)
    (by norm_num) (by norm_num)
    (fun g1 => @generateBossChallenge_low_error s (Or.inl hnext) g1)⟩

/-- C9 witness at the unknown difficulty string `"bogus"`. -/
theorem c9_witness :
    getNextDifficulty "bogus" = "infant" ∧
    ∀ g : Rng, generateTileMap "m1" 4 4 "bogus" g = .error .typeError :=
  c9_unknown_difficulty "bogus" (by decide)

/-- Mob direction deltas have unit Manhattan length. -/
lemma mobDirections_unit {dx dy : Int} (h : (dx, dy) ∈ mobDirections) :
    dx.natAbs + dy.natAbs = 1 := by
  simp only [mobDirections, List.mem_cons, List.not_mem_nil, or_false,
    Prod.mk.injEq] at h
  rcases h with ⟨rfl, rfl⟩ | ⟨rfl, rfl⟩ | ⟨rfl, rfl⟩ | ⟨rfl, rfl⟩ <;> rfl

lemma tryAdjacent_valid (m : TileMap) (cur : Pos) :
    ∀ dirs : List (Int × Int), (∀ dd ∈ dirs, dd ∈ mobDirections) →
      ∀ p, tryAdjacent m cur dirs = some p → validMobTarget m cur p := by
  intro dirs
  induction dirs with
  | nil =>
    intro _ p hp
    exact Option.noConfusion hp
  | cons dd rest ih =>
    intro hmem p hp
    obtain ⟨dx, dy⟩ := dd
    have hrest : ∀ q ∈ rest, q ∈ mobDirections :=
      fun q hq => hmem q (List.mem_cons_of_mem _ hq)
    rw [tryAdjacent] at hp
    by_cases hb : cur.x + dx < 0 ∨ cur.x + dx ≥ m.width ∨ cur.y + dy < 0 ∨
        cur.y + dy ≥ m.height
    · rw [if_pos hb] at hp
      exact ih hrest p hp
    · rw [if_neg hb] at hp
      cases hta : tileAt m (cur.x + dx) (cur.y + dy) with
      | none =>
        rw [hta] at hp
        exact ih hrest p hp
      | some tile =>
        rw [hta] at hp
        dsimp only at hp
        by_cases hacc : tile.isAccessible = false
        · rw [if_pos hacc] at hp
          exact ih hrest p hp
        · rw [if_neg hacc] at hp
          by_cases hboss : tile.type = TileType.boss
          · rw [if_pos hboss] at hp
            exact ih hrest p hp
          · rw [if_neg hboss] at hp
            by_cases hmob : (m.mobs.any fun mob =>
                decide (¬mob.isCompleted = true ∧
                  mob.position = ⟨cur.x + dx, cur.y + dy⟩ ∧
                  ¬(mob.position = cur))) = true
            · rw [if_pos hmob] at hp
              exact ih hrest p hp
            · rw [if_neg hmob] at hp
              injection hp with hp1
              subst hp1
              have hd4 : (dx, dy) ∈ mobDirections :=
                hmem _ (List.mem_cons_self _ _)
              have hunit := mobDirections_unit hd4
              push_neg at hb
              obtain ⟨hb1, hb2, hb3, hb4⟩ := hb
              have haT : tile.isAccessible = true := by
                cases hv : tile.isAccessible
                · exact absurd hv hacc
                · rfl
              refine ⟨?_, ⟨by dsimp only; omega, by dsimp only; omega,
                by dsimp only; omega, by dsimp only; omega⟩,
                ⟨tile, hta, haT, hboss⟩, ?_⟩
              · unfold adjacent
                dsimp only
                omega
              · rintro ⟨mob, hmm, hmc, hmp⟩
                apply hmob
                rw [List.any_eq_true]
                refine ⟨mob, hmm, ?_⟩
                rw [decide_eq_true_eq]
                refine ⟨by rw [hmc]; exact Bool.false_ne_true, hmp, ?_⟩
                intro hcurc
                rw [hmp] at hcurc
                have hx := congrArg Pos.x hcurc
                have hy := congrArg Pos.y hcurc
                dsimp only at hx hy
                omega

/-- C10: a mob destination returned by `getRandomAdjacentPosition` is always
4-adjacent, in bounds, on an accessible non-boss tile, and free of any other
uncompleted mob; on `none` the movement step keeps the mob's position, and on
`some p` an uncompleted mob moves exactly to `p`. -/
theorem c10_mob_movement :
    ∀ (m : TileMap) (cur : Pos) (g : Rng),
      (∀ p, (getRandomAdjacentPosition m cur g).1 = some p →
        validMobTarget m cur p) ∧
      (∀ mob : Mob, mob.position = cur →
        ((getRandomAdjacentPosition m cur g).1 = none →
          (moveSingleMob m mob g).1.position = cur) ∧
        (∀ p, (getRandomAdjacentPosition m cur g).1 = some p →
          mob.isCompleted = false →
          (moveSingleMob m mob g).1.position = p)) := by
  intro m cur g
  constructor
  · intro p hp
    unfold getRandomAdjacentPosition at hp
    rcases hsh : shuffleJs mobDirections g with ⟨dirs, g2⟩
    rw [hsh] at hp
    dsimp only at hp
    have hperm := shuffleJs_perm mobDirections g
    rw [hsh] at hperm
    exact tryAdjacent_valid m cur dirs
      (fun dd hdd => hperm.mem_iff.mp hdd) p hp
  · intro mob hpos
    constructor
    · intro hnone
      unfold moveSingleMob
      by_cases hc : mob.isCompleted
      · rw [if_pos hc]
        exact hpos
      · rw [if_neg hc, hpos]
        rcases hg : getRandomAdjacentPosition m cur g with ⟨res, g2⟩
        rw [hg] at hnone
        dsimp only at hnone
        subst hnone
        exact hpos
    · intro p hp hcomp
      unfold moveSingleMob
      rw [if_neg (by rw [hcomp]; exact Bool.false_ne_true), hpos]
      rcases hg : getRandomAdjacentPosition m cur g with ⟨res, g2⟩
      rw [hg] at hp
      dsimp only at hp
      subst hp
      rfl

/-- C10 witness on the sample map: the mob at `(1, 1)` is sent to the valid
target `(0, 1)` (the boss tile above and the wall below are rejected). -/
theorem c10_witness :
    validMobTarget sampleMobMap ⟨1, 1⟩ ⟨0, 1⟩ ∧
    (moveSingleMob sampleMobMap
      ⟨⟨1, 1⟩, ⟨0, .addition, (1, 2), 3, "infant", 5⟩, 0, false⟩
      g0).1.position = ⟨0, 1⟩ :=
  ⟨(c10_mob_movement sampleMobMap ⟨1, 1⟩ g0).1 ⟨0, 1⟩ (by rfl),
   ((c10_mob_movement sampleMobMap ⟨1, 1⟩ g0).2
      ⟨⟨1, 1⟩, ⟨0, .addition, (1, 2), 3, "infant", 5⟩, 0, false⟩ rfl).2
     ⟨0, 1⟩ (by rfl) rfl⟩
